import Mathlib

/-!
Verification development for the Diabot-V2 batch scripts.

Python strings are modelled as Lean strings (lists of unicode scalar
values); Python string primitives (strip, lower, split, slicing,
substring membership) are modelled by executable functions below.  Case
mapping is modelled for ASCII letters, which is exact for every string
handled by these scripts.  Remote HTTP calls are modelled by oracles
mapping an attempt number (or an item key) to an outcome; file writes
are modelled as a trace of snapshot records.  Floating point timing
values are not modelled; the accuracy ratio is modelled exactly as a
rational number.
-/

/-- Answer option letters A-D, upper case, as in the scripts. -/
def answerLetters : List Char := ['A', 'B', 'C', 'D']

/-- Both cases of the answer option letters. -/
def ciAnswerLetters : List Char := ['A', 'B', 'C', 'D', 'a', 'b', 'c', 'd']

/-- Character class of the regex [ABCD] under IGNORECASE (ASCII). -/
def ciLetter (c : Char) : Bool := ciAnswerLetters.contains c

/-- Word characters of the regex class backslash-w, restricted to ASCII. -/
def isWordChar (c : Char) : Bool := c.isAlphanum || c = '_'

/-- Python single-character membership test, as in the expression
letter in response. -/
def containsChar (s : String) (c : Char) : Bool := s.data.contains c

/-- Python str.lower restricted to ASCII (all inputs of the scripts). -/
def pyLower (s : String) : String := ⟨s.data.map Char.toLower⟩

/-- Strip whitespace from the front and the back of a character list,
modelling Python str.strip with no argument. -/
def stripList (l : List Char) : List Char :=
  ((l.dropWhile Char.isWhitespace).reverse.dropWhile Char.isWhitespace).reverse

/-- Python str.strip on strings. -/
def pyStrip (s : String) : String := ⟨stripList s.data⟩

/-- Python len on strings (number of code points). -/
def pyLen (s : String) : Nat := s.data.length

/-- Python slice s[:n]. -/
def pyTake (n : Nat) (s : String) : String := ⟨s.data.take n⟩

/-- Python slice s[n:]. -/
def pyDrop (n : Nat) (s : String) : String := ⟨s.data.drop n⟩

/-- Does the second list start with the first one (pattern first)? -/
def listStartsW : List Char → List Char → Bool
  | [], _ => true
  | _ :: _, [] => false
  | p :: ps, c :: cs => p == c && listStartsW ps cs

/-- Python t.startswith(p). -/
def pyStartsWith (t p : String) : Bool := listStartsW p.data t.data

/-- Substring containment of the first list in the second one,
modelling the Python expression sub in s. -/
def containsSub (sub : List Char) : List Char → Bool
  | [] => listStartsW sub []
  | c :: cs => listStartsW sub (c :: cs) || containsSub sub cs

/-- Python truthiness of an optional string: None and the empty string
are falsy. -/
def pyTruthy : Option String → Bool
  | none => false
  | some s => s ≠ ""

/-- Split a character list at every occurrence of a separator character,
modelling Python str.split with a one-character separator. -/
def splitCh (c : Char) : List Char → List (List Char)
  | [] => [[]]
  | d :: ds =>
    if d == c then [] :: splitCh c ds
    else
      match splitCh c ds with
      | r :: rs => (d :: r) :: rs
      | [] => [[d]]

/-- Python s.split(sep) for a one-character separator, on strings. -/
def pySplitCh (c : Char) (s : String) : List String :=
  (splitCh c s.data).map (fun l => ⟨l⟩)

/-- Find the first occurrence of a separator list and split there,
modelling Python str.split(sep, 1).  Returns none when the separator
does not occur. -/
def splitOnceAux (sep : List Char) : List Char → Option (List Char × List Char)
  | [] => none
  | c :: cs =>
    if listStartsW sep (c :: cs) then some ([], (c :: cs).drop sep.length)
    else
      match splitOnceAux sep cs with
      | some (pre, post) => some (c :: pre, post)
      | none => none

/-- Conversion of a character into a natural number is injective. -/
theorem char_eq_of_toNat_eq {c d : Char} (h : c.toNat = d.toNat) : c = d := by
  have h1 := Char.ofNat_toNat c
  rw [h, Char.ofNat_toNat d] at h1
  exact h1.symm

/-- Evaluation of Char.ofNat on valid code points. -/
theorem toNat_ofNat_valid (n : Nat) (h : n.isValidChar) : (Char.ofNat n).toNat = n := by
  simp [Char.ofNat, h, Char.ofNatAux, Char.toNat]
  rfl

/-- A character whose lower-case form is one of a, b, c, d is itself one
of the eight answer letters. -/
theorem toLower_mem_abcd {c : Char} (h : c.toLower ∈ (['a', 'b', 'c', 'd'] : List Char)) :
    c ∈ ciAnswerLetters := by
  unfold Char.toLower at h
  by_cases hc : 65 ≤ c.toNat ∧ c.toNat ≤ 90
  · rw [if_pos hc] at h
    have hv : (c.toNat + 32).isValidChar := Or.inl (by omega)
    have ht := toNat_ofNat_valid _ hv
    simp only [List.mem_cons, List.not_mem_nil, or_false] at h
    rcases h with h | h | h | h <;>
      [ (have h65 : c.toNat = 65 := by rw [h] at ht; simpa using ht.symm);
        (have h65 : c.toNat = 66 := by rw [h] at ht; simpa using ht.symm);
        (have h65 : c.toNat = 67 := by rw [h] at ht; simpa using ht.symm);
        (have h65 : c.toNat = 68 := by rw [h] at ht; simpa using ht.symm)] <;>
      [ (have hcc : c = 'A' := char_eq_of_toNat_eq (by simpa using h65));
        (have hcc : c = 'B' := char_eq_of_toNat_eq (by simpa using h65));
        (have hcc : c = 'C' := char_eq_of_toNat_eq (by simpa using h65));
        (have hcc : c = 'D' := char_eq_of_toNat_eq (by simpa using h65))] <;>
      simp [hcc, ciAnswerLetters]
  · rw [if_neg hc] at h
    simp only [List.mem_cons, List.not_mem_nil, or_false] at h
    simp only [ciAnswerLetters, List.mem_cons, List.not_mem_nil, or_false]
    tauto

/-- A character whose upper-case form is one of A, B, C, D is itself one
of the eight answer letters. -/
theorem toUpper_mem_ABCD {c : Char} (h : c.toUpper ∈ answerLetters) :
    c ∈ ciAnswerLetters := by
  unfold Char.toUpper at h
  by_cases hc : 97 ≤ c.toNat ∧ c.toNat ≤ 122
  · rw [if_pos hc] at h
    have hv : (c.toNat - 32).isValidChar := Or.inl (by omega)
    have ht := toNat_ofNat_valid _ hv
    simp only [answerLetters, List.mem_cons, List.not_mem_nil, or_false] at h
    rcases h with h | h | h | h <;>
      [ (have h97 : c.toNat = 97 := by rw [h] at ht; simp at ht; omega);
        (have h97 : c.toNat = 98 := by rw [h] at ht; simp at ht; omega);
        (have h97 : c.toNat = 99 := by rw [h] at ht; simp at ht; omega);
        (have h97 : c.toNat = 100 := by rw [h] at ht; simp at ht; omega)] <;>
      [ (have hcc : c = 'a' := char_eq_of_toNat_eq (by simpa using h97));
        (have hcc : c = 'b' := char_eq_of_toNat_eq (by simpa using h97));
        (have hcc : c = 'c' := char_eq_of_toNat_eq (by simpa using h97));
        (have hcc : c = 'd' := char_eq_of_toNat_eq (by simpa using h97))] <;>
      simp [hcc, ciAnswerLetters]
  · rw [if_neg hc] at h
    simp only [answerLetters, List.mem_cons, List.not_mem_nil, or_false] at h
    simp only [ciAnswerLetters, List.mem_cons, List.not_mem_nil, or_false]
    tauto

/-!
Multiple-choice answer extraction.

Two implementations exist in the repository: an inline substring loop in
get_model_answer of scripts/benchmark_models.py, and the regex based
extract_answer_letter of
scripts/benchmarking_first_method_scripts/benchmark-finetuned-model.py.
The regexes are embedded by specialised matchers: a case-insensitive
literal consumer, consumers for one-or-more and zero-or-more whitespace,
word boundaries, and a left-to-right scan over start positions with
greedy backtracking over the optional groups, which is exact for these
patterns because every greedy sub-pattern is followed by a disjoint
character class.
-/

/-- Letter extraction loop of get_model_answer in
scripts/benchmark_models.py: for each letter of A, B, C, D in order,
return it when the letter or its lower-case form occurs anywhere in the
response; then lower-case fallbacks; then a first-character fallback. -/
def inline_extract_letter (response : String) : Option Char :=
  if containsChar response 'A' || containsChar response 'a' then some 'A'
  else if containsChar response 'B' || containsChar response 'b' then some 'B'
  else if containsChar response 'C' || containsChar response 'c' then some 'C'
  else if containsChar response 'D' || containsChar response 'd' then some 'D'
  else if containsChar (pyLower response) 'a' then some 'A'
  else if containsChar (pyLower response) 'b' then some 'B'
  else if containsChar (pyLower response) 'c' then some 'C'
  else if containsChar (pyLower response) 'd' then some 'D'
  else
    match response.data with
    | c :: _ => if c.toUpper ∈ answerLetters then some c.toUpper else none
    | [] => none

/-- Consume a case-insensitive literal (given lower case) from the front
of the text, returning the rest. -/
def dropCI : List Char → List Char → Option (List Char)
  | [], cs => some cs
  | _ :: _, [] => none
  | p :: ps, c :: cs => if c.toLower == p then dropCI ps cs else none

/-- Consume one or more whitespace characters (regex backslash-s-plus,
greedy). -/
def ws1 : List Char → Option (List Char)
  | [] => none
  | c :: cs => if c.isWhitespace then some (cs.dropWhile Char.isWhitespace) else none

/-- Is the position after a word character a word boundary, looking at
the following characters? -/
def boundaryAfter : List Char → Bool
  | [] => true
  | d :: _ => !(isWordChar d)

/-- Is the position before a word character a word boundary, looking at
the preceding character? -/
def boundaryBefore : Option Char → Bool
  | none => true
  | some p => !(isWordChar p)

/-- Match the group ([ABCD]) followed by a word boundary, IGNORECASE,
returning the letter upper-cased as group(1).upper() does. -/
def letterTail : List Char → Option Char
  | [] => none
  | c :: rest => if ciLetter c && boundaryAfter rest then some c.toUpper else none

/-- Matcher for the pattern (?:answer|response):\s*([ABCD])\b at one
start position. -/
def tryPat1 (cs : List Char) : Option Char :=
  match (dropCI "answer".data cs).orElse (fun _ => dropCI "response".data cs) with
  | none => none
  | some r1 =>
    match r1 with
    | ':' :: r2 => letterTail (r2.dropWhile Char.isWhitespace)
    | _ => none

/-- Matcher for the mandatory part answer\s+is\s+([ABCD])\b of the
second pattern. -/
def pat2core (cs : List Char) : Option Char :=
  (dropCI "answer".data cs).bind fun r1 =>
  (ws1 r1).bind fun r2 =>
  (dropCI "is".data r2).bind fun r3 =>
  (ws1 r3).bind fun r4 => letterTail r4

/-- Optional word-plus-whitespace group (?:w\s+)? with greedy
backtracking: the branch consuming the word is tried first. -/
def optWordCI (w : List Char) (k : List Char → Option Char) (cs : List Char) : Option Char :=
  match (dropCI w cs).bind ws1 with
  | some r => (k r).orElse (fun _ => k cs)
  | none => k cs

/-- Matcher for the pattern
(?:the\s+)?(?:correct\s+)?answer\s+is\s+([ABCD])\b at one start
position. -/
def tryPat2 (cs : List Char) : Option Char :=
  optWordCI "the".data (optWordCI "correct".data pat2core) cs

/-- One arm i\s+w\s+([ABCD])\b of the third pattern. -/
def pat3arm (w : List Char) (cs : List Char) : Option Char :=
  (dropCI "i".data cs).bind fun r1 =>
  (ws1 r1).bind fun r2 =>
  (dropCI w r2).bind fun r3 =>
  (ws1 r3).bind fun r4 => letterTail r4

/-- Matcher for the pattern (?:i\s+choose\s+|i\s+select\s+)([ABCD])\b at
one start position. -/
def tryPat3 (cs : List Char) : Option Char :=
  (pat3arm "choose".data cs).orElse (fun _ => pat3arm "select".data cs)

/-- Matcher for the pattern
\b([ABCD])\s*(?:is\s+correct|is\s+the\s+answer) at one start position,
with the preceding character supplied for the leading word boundary. -/
def tryPat4 (prev : Option Char) (cs : List Char) : Option Char :=
  match cs with
  | [] => none
  | c :: rest =>
    if ciLetter c && boundaryBefore prev then
      match (dropCI "is".data (rest.dropWhile Char.isWhitespace)).bind ws1 with
      | none => none
      | some r2 =>
        if (dropCI "correct".data r2).isSome then some c.toUpper
        else
          match (dropCI "the".data r2).bind ws1 with
          | none => none
          | some r3 => if (dropCI "answer".data r3).isSome then some c.toUpper else none
    else none

/-- Left-to-right scan over start positions as re.search does, carrying
the preceding character for word boundaries; the first position where
the matcher succeeds wins. -/
def scanPat (f : Option Char → List Char → Option Char) : Option Char → List Char → Option Char
  | _, [] => none
  | prev, c :: rest =>
    match f prev (c :: rest) with
    | some l => some l
    | none => scanPat f (some c) rest

/-- Method 1 of extract_answer_letter: re.match of ^([ABCD])\b on the
stripped text, IGNORECASE. -/
def method1 : List Char → Option Char
  | [] => none
  | c :: rest => if ciLetter c && boundaryAfter rest then some c.toUpper else none

/-- Method 2 of extract_answer_letter: the four labelled patterns tried
in order, each searched anywhere in the text. -/
def method2 (cs : List Char) : Option Char :=
  (scanPat (fun _ => tryPat1) none cs).orElse fun _ =>
  (scanPat (fun _ => tryPat2) none cs).orElse fun _ =>
  (scanPat (fun _ => tryPat3) none cs).orElse fun _ =>
  scanPat tryPat4 none cs

/-- Single-position matcher of method 3: \b([ABCD])\b, IGNORECASE. -/
def tryM3 (prev : Option Char) : List Char → Option Char
  | [] => none
  | c :: rest =>
    if ciLetter c && boundaryBefore prev && boundaryAfter rest then some c.toUpper else none

/-- Method 3 of extract_answer_letter: first occurrence of
\b([ABCD])\b, IGNORECASE. -/
def method3 (cs : List Char) : Option Char := scanPat tryM3 none cs

/-- Single-position matcher of method 4: \b([abcd])\b, case
sensitive. -/
def tryM4 (prev : Option Char) : List Char → Option Char
  | [] => none
  | c :: rest =>
    if (['a', 'b', 'c', 'd'] : List Char).contains c && boundaryBefore prev && boundaryAfter rest
    then some c.toUpper else none

/-- Method 4 of extract_answer_letter: first occurrence of
\b([abcd])\b. -/
def method4 (cs : List Char) : Option Char := scanPat tryM4 none cs

/-- Embedding of extract_answer_letter from
scripts/benchmarking_first_method_scripts/benchmark-finetuned-model.py:
an empty (falsy) text yields None, otherwise the four methods are tried
in order. -/
def extract_answer_letter (response_text : String) : Option Char :=
  if response_text = "" then none
  else
    let cs := response_text.data
    match method1 (stripList cs) with
    | some l => some l
    | none =>
      match method2 cs with
      | some l => some l
      | none =>
        match method3 cs with
        | some l => some l
        | none => method4 cs

/-- Embedding of get_model_answer of scripts/benchmark_models.py as a
function of the gateway response: None when the call failed or returned
a falsy response, otherwise the inline extraction loop. -/
def get_model_answer (response : Option String) : Option Char :=
  if pyTruthy response then inline_extract_letter (response.getD "") else none

/-!
Lemmas used to settle the no-letter case of claim C1: every matcher
can only succeed by reading an answer letter from the text.
-/

theorem ciLetter_mem {c : Char} (h : ciLetter c = true) : c ∈ ciAnswerLetters := by
  simpa [ciLetter] using h

theorem dropCI_subset : ∀ (pat cs r : List Char), dropCI pat cs = some r → r ⊆ cs
  | [], cs, r, h => by simp [dropCI] at h; simp [h]
  | _ :: _, [], _, h => by simp [dropCI] at h
  | p :: ps, c :: cs, r, h => by
    simp only [dropCI] at h
    split at h
    · exact List.Subset.trans (dropCI_subset ps cs r h) (List.subset_cons_self c cs)
    · exact absurd h (by simp)

theorem ws1_subset {cs r : List Char} (h : ws1 cs = some r) : r ⊆ cs := by
  match cs with
  | [] => simp [ws1] at h
  | c :: rest =>
    simp only [ws1] at h
    split at h
    · have hr : r = rest.dropWhile Char.isWhitespace := by simpa using h.symm
      subst hr
      exact List.Subset.trans (List.dropWhile_subset _) (List.subset_cons_self c rest)
    · exact absurd h (by simp)

theorem letterTail_letter {cs : List Char} {l : Char} (h : letterTail cs = some l) :
    ∃ c ∈ cs, ciLetter c = true := by
  match cs with
  | [] => simp [letterTail] at h
  | c :: rest =>
    simp only [letterTail] at h
    split at h
    · rename_i hc
      exact ⟨c, List.mem_cons_self c rest, (Bool.and_eq_true _ _ |>.mp hc).1⟩
    · exact absurd h (by simp)

theorem tryPat1_letter {cs : List Char} {l : Char} (h : tryPat1 cs = some l) :
    ∃ c ∈ cs, ciLetter c = true := by
  unfold tryPat1 at h
  rcases ho : (dropCI "answer".data cs).orElse (fun _ => dropCI "response".data cs) with _ | r1
  · rw [ho] at h; simp at h
  · rw [ho] at h
    have hr1 : r1 ⊆ cs := by
      rcases ha : dropCI "answer".data cs with _ | ra
      · rcases hb : dropCI "response".data cs with _ | rb
        · simp [Option.orElse, ha, hb] at ho
        · have heq : r1 = rb := by simpa [Option.orElse, ha, hb] using ho.symm
          exact heq ▸ dropCI_subset _ _ _ hb
      · have heq : r1 = ra := by simpa [Option.orElse, ha] using ho.symm
        exact heq ▸ dropCI_subset _ _ _ ha
    simp only [] at h
    split at h
    · rename_i r2
      obtain ⟨c, hc, hlet⟩ := letterTail_letter h
      have hmem : c ∈ r2 := (List.dropWhile_subset _) hc
      exact ⟨c, hr1 (List.mem_cons_of_mem _ hmem), hlet⟩
    · simp at h

theorem pat2core_letter {cs : List Char} {l : Char} (h : pat2core cs = some l) :
    ∃ c ∈ cs, ciLetter c = true := by
  unfold pat2core at h
  rcases h1 : dropCI "answer".data cs with _ | r1
  · simp [h1] at h
  simp only [h1, Option.some_bind] at h
  rcases h2 : ws1 r1 with _ | r2
  · simp [h2] at h
  simp only [h2, Option.some_bind] at h
  rcases h3 : dropCI "is".data r2 with _ | r3
  · simp [h3] at h
  simp only [h3, Option.some_bind] at h
  rcases h4 : ws1 r3 with _ | r4
  · simp [h4] at h
  simp only [h4, Option.some_bind] at h
  obtain ⟨c, hc, hlet⟩ := letterTail_letter h
  refine ⟨c, ?_, hlet⟩
  exact dropCI_subset _ _ _ h1 (ws1_subset h2 (dropCI_subset _ _ _ h3 (ws1_subset h4 hc)))

theorem char_contains_mem {l : List Char} {c : Char} (h : l.contains c = true) : c ∈ l := by
  rcases List.contains_iff_exists_mem_beq.mp h with ⟨b, hb, hbeq⟩
  exact (eq_of_beq hbeq) ▸ hb

theorem mem_char_contains {l : List Char} {c : Char} (h : c ∈ l) : l.contains c = true := by
  exact List.contains_iff_exists_mem_beq.mpr ⟨c, h, by simp⟩

theorem optWordCI_cases {w : List Char} {k : List Char → Option Char} {cs : List Char} {l : Char}
    (h : optWordCI w k cs = some l) : ∃ t, t ⊆ cs ∧ k t = some l := by
  unfold optWordCI at h
  rcases hw : (dropCI w cs).bind ws1 with _ | r
  · rw [hw] at h
    exact ⟨cs, fun _ hx => hx, h⟩
  · simp only [hw] at h
    have hr : r ⊆ cs := by
      rcases hd : dropCI w cs with _ | rd
      · rw [hd] at hw; simp at hw
      · rw [hd] at hw; simp only [Option.some_bind] at hw
        exact List.Subset.trans (ws1_subset hw) (dropCI_subset _ _ _ hd)
    rcases hk : k r with _ | lr
    · rw [show (k r).orElse (fun _ => k cs) = k cs from by rw [hk]; rfl] at h
      exact ⟨cs, fun _ hx => hx, h⟩
    · rw [show (k r).orElse (fun _ => k cs) = some lr from by rw [hk]; rfl] at h
      exact ⟨r, hr, hk.trans h⟩

theorem tryPat2_letter {cs : List Char} {l : Char} (h : tryPat2 cs = some l) :
    ∃ c ∈ cs, ciLetter c = true := by
  unfold tryPat2 at h
  obtain ⟨t1, ht1, h1⟩ := optWordCI_cases h
  obtain ⟨t2, ht2, h2⟩ := optWordCI_cases h1
  obtain ⟨c, hc, hlet⟩ := pat2core_letter h2
  exact ⟨c, ht1 (ht2 hc), hlet⟩

theorem pat3arm_letter {w cs : List Char} {l : Char} (h : pat3arm w cs = some l) :
    ∃ c ∈ cs, ciLetter c = true := by
  unfold pat3arm at h
  rcases h1 : dropCI "i".data cs with _ | r1
  · simp [h1] at h
  simp only [h1, Option.some_bind] at h
  rcases h2 : ws1 r1 with _ | r2
  · simp [h2] at h
  simp only [h2, Option.some_bind] at h
  rcases h3 : dropCI w r2 with _ | r3
  · simp [h3] at h
  simp only [h3, Option.some_bind] at h
  rcases h4 : ws1 r3 with _ | r4
  · simp [h4] at h
  simp only [h4, Option.some_bind] at h
  obtain ⟨c, hc, hlet⟩ := letterTail_letter h
  refine ⟨c, ?_, hlet⟩
  exact dropCI_subset _ _ _ h1 (ws1_subset h2 (dropCI_subset _ _ _ h3 (ws1_subset h4 hc)))

theorem tryPat3_letter {cs : List Char} {l : Char} (h : tryPat3 cs = some l) :
    ∃ c ∈ cs, ciLetter c = true := by
  unfold tryPat3 at h
  rcases ha : pat3arm "choose".data cs with _ | la
  · rw [show (pat3arm "choose".data cs).orElse (fun _ => pat3arm "select".data cs)
        = pat3arm "select".data cs from by rw [ha]; rfl] at h
    exact pat3arm_letter h
  · rw [show (pat3arm "choose".data cs).orElse (fun _ => pat3arm "select".data cs)
        = some la from by rw [ha]; rfl] at h
    exact pat3arm_letter (ha.trans h)

theorem tryPat4_letter {prev : Option Char} {cs : List Char} {l : Char}
    (h : tryPat4 prev cs = some l) : ∃ c ∈ cs, ciLetter c = true := by
  match cs with
  | [] => simp [tryPat4] at h
  | c :: rest =>
    simp only [tryPat4] at h
    split at h
    · rename_i hc
      exact ⟨c, List.mem_cons_self c rest, (Bool.and_eq_true _ _ |>.mp hc).1⟩
    · simp at h

theorem tryM3_letter {prev : Option Char} {cs : List Char} {l : Char}
    (h : tryM3 prev cs = some l) : ∃ c ∈ cs, ciLetter c = true := by
  match cs with
  | [] => simp [tryM3] at h
  | c :: rest =>
    simp only [tryM3] at h
    split at h
    · rename_i hc
      have := (Bool.and_eq_true _ _ |>.mp ((Bool.and_eq_true _ _ |>.mp hc).1)).1
      exact ⟨c, List.mem_cons_self c rest, this⟩
    · simp at h

theorem tryM4_letter {prev : Option Char} {cs : List Char} {l : Char}
    (h : tryM4 prev cs = some l) : ∃ c ∈ cs, ciLetter c = true := by
  match cs with
  | [] => simp [tryM4] at h
  | c :: rest =>
    simp only [tryM4] at h
    split at h
    · rename_i hc
      have hlow := (Bool.and_eq_true _ _ |>.mp ((Bool.and_eq_true _ _ |>.mp hc).1)).1
      refine ⟨c, List.mem_cons_self c rest, ?_⟩
      have hm : c ∈ (['a', 'b', 'c', 'd'] : List Char) := char_contains_mem hlow
      apply mem_char_contains
      simp only [ciAnswerLetters, List.mem_cons] at *
      tauto
    · simp at h

theorem scanPat_some {f : Option Char → List Char → Option Char} {l : Char} :
    ∀ {prev : Option Char} {cs : List Char}, scanPat f prev cs = some l →
      ∃ p t, t ⊆ cs ∧ f p t = some l := by
  intro prev cs
  induction cs generalizing prev with
  | nil => intro h; simp [scanPat] at h
  | cons c rest ih =>
    intro h
    simp only [scanPat] at h
    rcases hf : f prev (c :: rest) with _ | lf
    · rw [hf] at h
      obtain ⟨p, t, ht, hft⟩ := ih h
      exact ⟨p, t, List.Subset.trans ht (List.subset_cons_self c rest), hft⟩
    · rw [hf] at h
      exact ⟨prev, c :: rest, fun _ hx => hx, hf.trans h⟩

theorem stripList_subset (l : List Char) : stripList l ⊆ l := by
  intro c hc
  unfold stripList at hc
  rw [List.mem_reverse] at hc
  have h1 := (List.dropWhile_subset (l := (l.dropWhile Char.isWhitespace).reverse)
    (p := Char.isWhitespace)) hc
  rw [List.mem_reverse] at h1
  exact (List.dropWhile_subset _) h1

theorem method1_letter {cs : List Char} {l : Char} (h : method1 cs = some l) :
    ∃ c ∈ cs, ciLetter c = true := by
  match cs with
  | [] => simp [method1] at h
  | c :: rest =>
    simp only [method1] at h
    split at h
    · rename_i hc
      exact ⟨c, List.mem_cons_self c rest, (Bool.and_eq_true _ _ |>.mp hc).1⟩
    · simp at h

theorem orElse_some_cases {a : Option Char} {f : Unit → Option Char} {l : Char}
    (h : a.orElse f = some l) : a = some l ∨ (f () = some l) := by
  cases a with
  | none => right; exact h
  | some x => left; exact h

theorem method2_letter {cs : List Char} {l : Char} (h : method2 cs = some l) :
    ∃ c ∈ cs, ciLetter c = true := by
  unfold method2 at h
  rcases orElse_some_cases h with h1 | h1
  · obtain ⟨p, t, ht, hf⟩ := scanPat_some h1
    obtain ⟨c, hc, hl⟩ := tryPat1_letter hf
    exact ⟨c, ht hc, hl⟩
  rcases orElse_some_cases h1 with h2 | h2
  · obtain ⟨p, t, ht, hf⟩ := scanPat_some h2
    obtain ⟨c, hc, hl⟩ := tryPat2_letter hf
    exact ⟨c, ht hc, hl⟩
  rcases orElse_some_cases h2 with h3 | h3
  · obtain ⟨p, t, ht, hf⟩ := scanPat_some h3
    obtain ⟨c, hc, hl⟩ := tryPat3_letter hf
    exact ⟨c, ht hc, hl⟩
  · obtain ⟨p, t, ht, hf⟩ := scanPat_some h3
    obtain ⟨c, hc, hl⟩ := tryPat4_letter hf
    exact ⟨c, ht hc, hl⟩

theorem method3_letter {cs : List Char} {l : Char} (h : method3 cs = some l) :
    ∃ c ∈ cs, ciLetter c = true := by
  obtain ⟨p, t, ht, hf⟩ := scanPat_some h
  obtain ⟨c, hc, hl⟩ := tryM3_letter hf
  exact ⟨c, ht hc, hl⟩

theorem method4_letter {cs : List Char} {l : Char} (h : method4 cs = some l) :
    ∃ c ∈ cs, ciLetter c = true := by
  obtain ⟨p, t, ht, hf⟩ := scanPat_some h
  obtain ⟨c, hc, hl⟩ := tryM4_letter hf
  exact ⟨c, ht hc, hl⟩

theorem not_mem_char_contains {l : List Char} {c : Char} (h : c ∉ l) : l.contains c = false := by
  cases hq : l.contains c with
  | false => rfl
  | true => exact absurd (char_contains_mem hq) h

theorem extract_answer_letter_none {s : String}
    (hno : ∀ c ∈ s.data, c ∉ ciAnswerLetters) : extract_answer_letter s = none := by
  unfold extract_answer_letter
  by_cases hs : s = ""
  · simp [hs]
  rw [if_neg hs]
  have hm1 : method1 (stripList s.data) = none := by
    rcases hq : method1 (stripList s.data) with _ | l
    · rfl
    · obtain ⟨c, hc, hl⟩ := method1_letter hq
      exact absurd (ciLetter_mem hl) (hno c (stripList_subset _ hc))
  have hm2 : method2 s.data = none := by
    rcases hq : method2 s.data with _ | l
    · rfl
    · obtain ⟨c, hc, hl⟩ := method2_letter hq
      exact absurd (ciLetter_mem hl) (hno c hc)
  have hm3 : method3 s.data = none := by
    rcases hq : method3 s.data with _ | l
    · rfl
    · obtain ⟨c, hc, hl⟩ := method3_letter hq
      exact absurd (ciLetter_mem hl) (hno c hc)
  have hm4 : method4 s.data = none := by
    rcases hq : method4 s.data with _ | l
    · rfl
    · obtain ⟨c, hc, hl⟩ := method4_letter hq
      exact absurd (ciLetter_mem hl) (hno c hc)
  simp only [hm1, hm2, hm3, hm4]

theorem inline_extract_letter_none {s : String}
    (hno : ∀ c ∈ s.data, c ∉ ciAnswerLetters) : inline_extract_letter s = none := by
  have hup : ∀ c : Char, c ∈ s.data → c ∉ ciAnswerLetters := hno
  have hnc : ∀ c : Char, c ∈ ciAnswerLetters → containsChar s c = false := by
    intro c hc
    exact not_mem_char_contains (fun hm => hno c hm hc)
  have hlowc : ∀ c : Char, c ∈ (['a', 'b', 'c', 'd'] : List Char) →
      containsChar (pyLower s) c = false := by
    intro c hc
    apply not_mem_char_contains
    intro hm
    simp only [pyLower, List.mem_map] at hm
    obtain ⟨c0, hc0, hc0l⟩ := hm
    have : c0.toLower ∈ (['a', 'b', 'c', 'd'] : List Char) := by rw [hc0l]; exact hc
    exact hno c0 hc0 (toLower_mem_abcd this)
  unfold inline_extract_letter
  rw [hnc 'A' (by decide), hnc 'a' (by decide), hnc 'B' (by decide), hnc 'b' (by decide),
      hnc 'C' (by decide), hnc 'c' (by decide), hnc 'D' (by decide), hnc 'd' (by decide),
      hlowc 'a' (by decide), hlowc 'b' (by decide), hlowc 'c' (by decide), hlowc 'd' (by decide)]
  simp only [Bool.or_self, Bool.false_eq_true, if_false]
  cases hd : s.data with
  | nil => rfl
  | cons c rest =>
    have hcu : c.toUpper ∉ answerLetters := by
      intro hin
      exact hno c (by rw [hd]; exact List.mem_cons_self c rest) (toUpper_mem_ABCD hin)
    show (if c.toUpper ∈ answerLetters then some c.toUpper else none) = none
    rw [if_neg hcu]

/-- Claim C1 (amended): the regex based extract_answer_letter follows
the spec examples: input B yields B, input The answer is C because...
yields C, the third example (I think it is d, with an apostrophe before
the final letter) yields D, and an input containing no
answer letter anywhere yields None.  The inline loop of
get_model_answer agrees on the first, third and fourth examples, but on
The answer is C because... it returns A, not C, because it tests
substring containment of each letter (and its lower case) in
prioritized order A, B, C, D and the word answer contains the letter a.
-/
theorem C1_extraction :
    extract_answer_letter "B" = some 'B'
    ∧ extract_answer_letter "The answer is C because..." = some 'C'
    ∧ extract_answer_letter "I think it\x27s d" = some 'D'
    ∧ inline_extract_letter "B" = some 'B'
    ∧ inline_extract_letter "I think it\x27s d" = some 'D'
    ∧ inline_extract_letter "The answer is C because..." = some 'A'
    ∧ (∀ s : String, (∀ c ∈ s.data, c ∉ ciAnswerLetters) →
        extract_answer_letter s = none ∧ inline_extract_letter s = none) := by
  refine ⟨by decide, by decide, by decide, by decide, by decide, by decide, ?_⟩
  intro s hs
  exact ⟨extract_answer_letter_none hs, inline_extract_letter_none hs⟩

/-- Witness for claim C1: the no-letter hypothesis is satisfiable, at
the concrete input xyz 123. -/
theorem C1_extraction_witness :
    (∀ c ∈ ("xyz 123" : String).data, c ∉ ciAnswerLetters)
    ∧ extract_answer_letter "xyz 123" = none
    ∧ inline_extract_letter "xyz 123" = none :=
  ⟨by decide,
   (C1_extraction.2.2.2.2.2.2 "xyz 123" (by decide)).1,
   (C1_extraction.2.2.2.2.2.2 "xyz 123" (by decide)).2⟩

/-- Counterexample for claim C1 as stated: on the spec example The
answer is C because... the inline loop of get_model_answer returns A,
not C. -/
theorem C1_counterexample :
    inline_extract_letter "The answer is C because..." = some 'A'
    ∧ ¬ inline_extract_letter "The answer is C because..." = some 'C' :=
  ⟨by decide, by decide⟩

/-!
Remote Call Gateway functions.  One HTTP attempt is modelled by an
oracle from the attempt number to an outcome: a successful response
carrying the content string, a successful response missing the expected
content field, a timeout, a connection error, an HTTP error status, or
any other exception (JSON decoding and the like).  Sleeping between
attempts has no observable effect in the model.  Each gateway returns
its result together with the number of attempts it performed.
-/

/-- Outcome of a single HTTP attempt against the remote service. -/
inductive ApiOutcome where
  | ok (content : String)
  | okMissing
  | timeout
  | connError
  | httpError
  | otherError
deriving DecidableEq

/-- Did the attempt succeed with a usable content field? -/
def isOkOutcome : ApiOutcome → Bool
  | .ok _ => true
  | _ => false

/-- Outcomes on which call_local_llama takes its retry branch: timeout,
HTTP error status and unexpected exceptions, but not connection errors
and not a response missing its content field. -/
def isRetryableLocal : ApiOutcome → Bool
  | .timeout => true
  | .httpError => true
  | .otherError => true
  | _ => false

/-- Prefix list of clean_translation_response in
translate_finetuning_data.py. -/
def prefixesToRemove : List String :=
  ["Answer:", "Réponse:", "The answer is:", "To answer your question:",
   "Here is the translation:", "Translation:", "Traduction:",
   "The translation is:", "Here\x27s the translation:",
   "The translated text is:", "English translation:", "In English:"]

/-- Loop body of clean_translation_response: drop the first matching
prefix (case-insensitively), strip, and stop. -/
def cleanLoop : List String → String → String
  | [], t => t
  | p :: ps, t =>
    if pyStartsWith (pyLower t) (pyLower p) then pyStrip (pyDrop (pyLen p) t)
    else cleanLoop ps t

/-- Embedding of clean_translation_response of
translate_finetuning_data.py. -/
def clean_translation_response (text : String) : String :=
  cleanLoop prefixesToRemove (pyStrip text)

/-- Retry loop of translate_text in translate_finetuning_data.py
(max_retries = 3): on success the stripped content is cleaned and
returned; on any exception the loop retries unless the attempt was the
last one, in which case None is returned. -/
def translate_text_go (oracle : Nat → ApiOutcome) (attempt : Nat) : Nat → Option String × Nat
  | 0 => (none, attempt)
  | Nat.succ rem =>
    match oracle attempt with
    | .ok content => (some (clean_translation_response (pyStrip content)), attempt + 1)
    | _ =>
      if rem == 0 then (none, attempt + 1)
      else translate_text_go oracle (attempt + 1) rem

/-- Embedding of translate_text: three attempts starting at attempt
zero. -/
def translate_text_run (oracle : Nat → ApiOutcome) : Option String × Nat :=
  translate_text_go oracle 0 3

/-- Retry loop of call_local_llama in
scripts/benchmarking_first_method_scripts/benchmark-finetuned-model.py
(max_retries = 2): a response with content returns it stripped; a
response without content returns None at once; a connection error
returns None at once; a timeout or any other exception retries unless
the attempt was the last one. -/
def call_local_llama_go (oracle : Nat → ApiOutcome) (attempt : Nat) : Nat → Option String × Nat
  | 0 => (none, attempt)
  | Nat.succ rem =>
    match oracle attempt with
    | .ok content => (some (pyStrip content), attempt + 1)
    | .okMissing => (none, attempt + 1)
    | .connError => (none, attempt + 1)
    | _ =>
      if rem == 0 then (none, attempt + 1)
      else call_local_llama_go oracle (attempt + 1) rem

/-- Embedding of call_local_llama: two attempts starting at attempt
zero. -/
def call_local_llama_run (oracle : Nat → ApiOutcome) : Option String × Nat :=
  call_local_llama_go oracle 0 2

/-- Embedding of call_openrouter of scripts/benchmark_models.py: a
missing key raises ValueError before any request is issued; otherwise a
single attempt is made, every exception is caught and None is
returned. -/
def call_openrouter_run (key : Option String) (oracle : Nat → ApiOutcome) :
    Except String (Option String × Nat) :=
  match key with
  | none => .error "OpenRouter API key not found in environment variables"
  | some _ =>
    .ok (match oracle 0 with
         | .ok content => (some (pyStrip content), 1)
         | _ => (none, 1))

/-- Stepping lemma: a failed attempt with retries left moves to the
next attempt. -/
theorem translate_text_go_fail {oracle : Nat → ApiOutcome} {attempt rem : Nat}
    (h : isOkOutcome (oracle attempt) = false) :
    translate_text_go oracle attempt (rem + 1) =
      if rem == 0 then (none, attempt + 1) else translate_text_go oracle (attempt + 1) rem := by
  cases hq : oracle attempt <;> simp_all [translate_text_go, isOkOutcome]

/-- Stepping lemma: a successful attempt returns the cleaned stripped
content. -/
theorem translate_text_go_ok {oracle : Nat → ApiOutcome} {attempt rem : Nat} {s : String}
    (h : oracle attempt = .ok s) :
    translate_text_go oracle attempt (rem + 1) =
      (some (clean_translation_response (pyStrip s)), attempt + 1) := by
  simp [translate_text_go, h]

/-- Stepping lemma: a retryable failure of call_local_llama with
retries left moves to the next attempt. -/
theorem call_local_llama_go_retry {oracle : Nat → ApiOutcome} {attempt rem : Nat}
    (h : isRetryableLocal (oracle attempt) = true) :
    call_local_llama_go oracle attempt (rem + 1) =
      if rem == 0 then (none, attempt + 1) else call_local_llama_go oracle (attempt + 1) rem := by
  cases hq : oracle attempt <;> simp_all [call_local_llama_go, isRetryableLocal]

/-- Claim C2 (amended): translate_text retries up to three attempts on
every caught exception, with a fixed delay, and returns None exactly
when all three attempts fail; call_local_llama retries up to two
attempts on timeouts, HTTP errors and unexpected exceptions, but
returns None immediately, without using its remaining attempt, on a
connection error (and on a response missing its content field); and
call_openrouter of scripts/benchmark_models.py performs exactly one
attempt, returning None on any failure without retrying. -/
theorem C2_gateway_retry :
    (∀ oracle : Nat → ApiOutcome, (∀ j, j < 3 → isOkOutcome (oracle j) = false) →
        translate_text_run oracle = (none, 3))
    ∧ (∀ (oracle : Nat → ApiOutcome) (i : Nat) (s : String), i < 3 →
        (∀ j, j < i → isOkOutcome (oracle j) = false) → oracle i = .ok s →
        translate_text_run oracle = (some (clean_translation_response (pyStrip s)), i + 1))
    ∧ (∀ (oracle : Nat → ApiOutcome) (s : String),
        isRetryableLocal (oracle 0) = true → oracle 1 = .ok s →
        call_local_llama_run oracle = (some (pyStrip s), 2))
    ∧ (∀ oracle : Nat → ApiOutcome, oracle 0 = .connError →
        call_local_llama_run oracle = (none, 1))
    ∧ (∀ oracle : Nat → ApiOutcome, isRetryableLocal (oracle 0) = true →
        isOkOutcome (oracle 1) = false →
        call_local_llama_run oracle = (none, 2))
    ∧ (∀ (key : String) (oracle : Nat → ApiOutcome) (s : String), oracle 0 = .ok s →
        call_openrouter_run (some key) oracle = .ok (some (pyStrip s), 1))
    ∧ (∀ (key : String) (oracle : Nat → ApiOutcome), isOkOutcome (oracle 0) = false →
        call_openrouter_run (some key) oracle = .ok (none, 1)) := by
  refine ⟨?_, ?_, ?_, ?_, ?_, ?_, ?_⟩
  · intro oracle h
    unfold translate_text_run
    rw [translate_text_go_fail (h 0 (by omega)), if_neg (by simp),
        translate_text_go_fail (h 1 (by omega)), if_neg (by simp),
        translate_text_go_fail (h 2 (by omega))]
    simp
  · intro oracle i s hi hfail hok
    unfold translate_text_run
    match i, hi with
    | 0, _ => rw [translate_text_go_ok hok]
    | 1, _ =>
      rw [translate_text_go_fail (hfail 0 (by omega)), if_neg (by simp),
          translate_text_go_ok hok]
    | 2, _ =>
      rw [translate_text_go_fail (hfail 0 (by omega)), if_neg (by simp),
          translate_text_go_fail (hfail 1 (by omega)), if_neg (by simp),
          translate_text_go_ok hok]
  · intro oracle s hr hok
    unfold call_local_llama_run
    rw [call_local_llama_go_retry hr, if_neg (by simp)]
    simp [call_local_llama_go, hok]
  · intro oracle hconn
    unfold call_local_llama_run
    simp [call_local_llama_go, hconn]
  · intro oracle hr hfail
    unfold call_local_llama_run
    rw [call_local_llama_go_retry hr, if_neg (by simp)]
    cases hq : oracle 1 <;> simp_all [call_local_llama_go, isOkOutcome]
  · intro key oracle s hok
    simp [call_openrouter_run, hok]
  · intro key oracle hfail
    cases hq : oracle 0 <;> simp_all [call_openrouter_run, isOkOutcome]

/-- Witness for claim C2: the amended behaviour at concrete oracles. -/
theorem C2_gateway_retry_witness :
    translate_text_run (fun j => if j < 2 then ApiOutcome.timeout else .ok "Hello") =
      (some "Hello", 3)
    ∧ call_local_llama_run (fun j => if j = 0 then ApiOutcome.timeout else .ok "B") =
      (some "B", 2)
    ∧ call_openrouter_run (some "k") (fun _ => ApiOutcome.timeout) = .ok (none, 1) := by
  refine ⟨?_, ?_, ?_⟩
  · have h := C2_gateway_retry.1
    have h2 := C2_gateway_retry.2.1 (fun j => if j < 2 then ApiOutcome.timeout else .ok "Hello")
      2 "Hello" (by omega) (fun j hj => by interval_cases j <;> decide) (by decide)
    rw [h2]
    decide
  · exact C2_gateway_retry.2.2.1 (fun j => if j = 0 then ApiOutcome.timeout else .ok "B")
      "B" (by decide) (by decide)
  · exact C2_gateway_retry.2.2.2.2.2.2 "k" (fun _ => ApiOutcome.timeout) (by decide)

/-- Counterexample for claim C2 as stated: on a connection error at its
first attempt, call_local_llama returns None after a single attempt,
although a second attempt was available and would have succeeded, so it
does not retry on every transport-level failure; and call_openrouter
performs a single attempt on a timeout, below the stated bound of two
to three attempts. -/
theorem C2_counterexample :
    call_local_llama_run (fun j => if j = 0 then ApiOutcome.connError else .ok "B") = (none, 1)
    ∧ (fun j => if j = 0 then ApiOutcome.connError else ApiOutcome.ok "B") 1 = .ok "B"
    ∧ call_openrouter_run (some "k") (fun _ => ApiOutcome.timeout) = .ok (none, 1)
    ∧ (1 : Nat) < 2 := by
  refine ⟨by decide, by decide, rfl, by omega⟩

/-!
Batch drivers.  A row of the multiple-choice dataset carries an id, a
question and four options; per-question gateway behaviour is an oracle
from the question id to the response (None when the call failed).
Python dictionaries are modelled as association lists with in-place
update, which matches insertion-ordered dictionaries exactly for the
operations used.  Every write of the output file is recorded as a
snapshot in a trace.
-/

/-- Ordered dictionary update: replace the value of an existing key in
place, append a new key at the end. -/
def dictSet {α : Type} : List (String × α) → String → α → List (String × α)
  | [], k, v => [(k, v)]
  | (k0, v0) :: rest, k, v =>
    if k0 = k then (k0, v) :: rest else (k0, v0) :: dictSet rest k v

/-- Dictionary lookup. -/
def dictGet {α : Type} (m : List (String × α)) (k : String) : Option α :=
  (m.find? (fun e => e.1 == k)).map (fun e => e.2)

/-- Boolean equality of strings reflects propositional disequality. -/
theorem str_beq_false {a b : String} (h : ¬ a = b) : (a == b) = false := by
  simpa using h

/-- Looking up the key just set yields the new value. -/
theorem dictGet_set_self {α : Type} (m : List (String × α)) (k : String) (v : α) :
    dictGet (dictSet m k v) k = some v := by
  induction m with
  | nil => simp [dictSet, dictGet]
  | cons e rest ih =>
    obtain ⟨k0, v0⟩ := e
    by_cases hk : k0 = k
    · simp [dictSet, dictGet, hk]
    · have hb : (k0 == k) = false := str_beq_false hk
      simp only [dictSet, if_neg hk]
      simpa [dictGet, List.find?, hb] using ih

/-- Looking up another key is unchanged by a set. -/
theorem dictGet_set_ne {α : Type} (m : List (String × α)) (k k2 : String) (v : α)
    (h : k2 ≠ k) : dictGet (dictSet m k v) k2 = dictGet m k2 := by
  have hb0 : (k == k2) = false := str_beq_false (fun hh => h hh.symm)
  induction m with
  | nil => simp [dictSet, dictGet, List.find?, hb0]
  | cons e rest ih =>
    obtain ⟨k0, v0⟩ := e
    by_cases hk : k0 = k
    · subst hk
      simp [dictSet, dictGet, List.find?, hb0]
    · simp only [dictSet, if_neg hk]
      by_cases hk2 : k0 = k2
      · simp [dictGet, List.find?, hk2]
      · simpa [dictGet, List.find?, str_beq_false hk2] using ih

/-- Row of the multiple-choice benchmark dataset: id, question and the
four options. -/
structure QARow where
  id : String
  question : String
  optA : String
  optB : String
  optC : String
  optD : String
deriving DecidableEq, Inhabited, Repr

/-- Evaluation summary of evaluate_model in scripts/benchmark_models.py.
The Python accuracy is a float; it is modelled exactly as a rational. -/
structure EvalSummary where
  total_questions : Nat
  correct_answers : Nat
  accuracy : ℚ
deriving DecidableEq, Repr

/-- Embedding of evaluate_model of scripts/benchmark_models.py. -/
def evaluate_model (model_answers correct_answers : List (String × Char)) : EvalSummary :=
  let total := correct_answers.length
  let correct := (correct_answers.filter
    (fun e => dictGet model_answers e.1 == some e.2)).length
  ⟨total, correct, if total > 0 then (correct * 100 : ℚ) / total else 0⟩

/-- Final results object of benchmark_model in
scripts/benchmark_models.py: the answers dictionary and the evaluation
(model name and timestamps are not modelled). -/
structure MCFinal where
  answers : List (String × Char)
  evaluation : EvalSummary
deriving DecidableEq, Repr

/-- One write of the output file: a progress snapshot holding the
answers dictionary, or the final write holding the full results with
aggregate metrics. -/
inductive WriteRec where
  | progress (answers : List (String × Char))
  | finalW (res : MCFinal)
deriving DecidableEq, Repr

/-- Is a write record an in-loop progress write? -/
def isProgressW : WriteRec → Bool
  | .progress _ => true
  | .finalW _ => false

/-- Item loop of benchmark_model in scripts/benchmark_models.py: a row
whose id is not among the correct answers is skipped; otherwise the
model is queried and the inline letter extraction applied; on a letter
the answers dictionary is updated and the file rewritten; on a missing
answer nothing is written and the loop continues. -/
def benchmark_model_go (correct : List (String × Char)) (gw : String → Option String) :
    List QARow → List (String × Char) → List WriteRec →
      List (String × Char) × List WriteRec
  | [], answers, ws => (answers, ws)
  | row :: rest, answers, ws =>
    if (dictGet correct row.id).isNone then
      benchmark_model_go correct gw rest answers ws
    else
      match get_model_answer (gw row.id) with
      | some a =>
        let answers2 := dictSet answers row.id a
        benchmark_model_go correct gw rest answers2 (ws ++ [WriteRec.progress answers2])
      | none => benchmark_model_go correct gw rest answers ws

/-- Embedding of benchmark_model of scripts/benchmark_models.py,
returning the final results and the write trace; the final write adds
the evaluation metrics. -/
def benchmark_model (rows : List QARow) (correct : List (String × Char))
    (gw : String → Option String) : MCFinal × List WriteRec :=
  let p := benchmark_model_go correct gw rows [] []
  let res : MCFinal := ⟨p.1, evaluate_model p.1 correct⟩
  (res, p.2 ++ [WriteRec.finalW res])

/-- Does the driver record an answer for key k: the id is among the
correct answers and the extraction produced a letter. -/
def mcSuccess (correct : List (String × Char)) (gw : String → Option String)
    (k : String) : Bool :=
  (dictGet correct k).isSome && (get_model_answer (gw k)).isSome

/-- Characterisation of the answers dictionary computed by the item
loop: the stored value for a key only depends on the key. -/
theorem benchmark_model_go_get (correct : List (String × Char)) (gw : String → Option String) :
    ∀ (rows : List QARow) (acc : List (String × Char)) (ws : List WriteRec) (k : String),
      dictGet (benchmark_model_go correct gw rows acc ws).1 k =
        if rows.any (fun r => r.id == k) && mcSuccess correct gw k
        then get_model_answer (gw k)
        else dictGet acc k := by
  intro rows
  induction rows with
  | nil => intro acc ws k; simp [benchmark_model_go]
  | cons row rest ih =>
    intro acc ws k
    by_cases hid : row.id = k
    · subst hid
      by_cases hc : (dictGet correct row.id).isNone
      · have hmc : mcSuccess correct gw row.id = false := by
          simp [mcSuccess, Option.isNone_iff_eq_none.mp hc]
        simp only [benchmark_model_go, if_pos hc, ih, hmc, Bool.and_false]
      · rcases hg : get_model_answer (gw row.id) with _ | a
        · have hmc : mcSuccess correct gw row.id = false := by
            simp [mcSuccess, hg]
          simp only [benchmark_model_go, if_neg hc, hg, ih, hmc, Bool.and_false]
        · have hmc : mcSuccess correct gw row.id = true := by
            simp only [mcSuccess, hg, Option.isSome_some, Bool.and_true]
            simpa using Option.ne_none_iff_isSome.mp (by simpa using hc)
          simp only [benchmark_model_go, if_neg hc, hg, ih, hmc, Bool.and_true]
          by_cases hr : rest.any (fun r => r.id == row.id)
          · simp [hr, hg]
          · simp [hr, hg, dictGet_set_self]
    · have hb : (row.id == k) = false := str_beq_false hid
      by_cases hc : (dictGet correct row.id).isNone
      · simp only [benchmark_model_go, if_pos hc, ih, List.any_cons, hb, Bool.false_or]
      · rcases hg : get_model_answer (gw row.id) with _ | a
        · simp only [benchmark_model_go, if_neg hc, hg, ih, List.any_cons, hb, Bool.false_or]
        · simp only [benchmark_model_go, if_neg hc, hg, ih, List.any_cons, hb, Bool.false_or]
          rw [dictGet_set_ne _ _ _ _ (fun hh => hid hh.symm)]

/-- Snapshot list of the in-loop writes of benchmark_model: one
snapshot of the accumulated answers after every successfully answered
item, and none after an item whose answer could not be obtained. -/
def mcSnapshots (correct : List (String × Char)) (gw : String → Option String) :
    List QARow → List (String × Char) → List (List (String × Char))
  | [], _ => []
  | row :: rest, acc =>
    if (dictGet correct row.id).isNone then mcSnapshots correct gw rest acc
    else
      match get_model_answer (gw row.id) with
      | some a =>
        let acc2 := dictSet acc row.id a
        acc2 :: mcSnapshots correct gw rest acc2
      | none => mcSnapshots correct gw rest acc

/-- The write trace of the item loop is the incoming trace followed by
one progress record per snapshot. -/
theorem benchmark_model_go_writes (correct : List (String × Char)) (gw : String → Option String) :
    ∀ (rows : List QARow) (acc : List (String × Char)) (ws : List WriteRec),
      (benchmark_model_go correct gw rows acc ws).2 =
        ws ++ (mcSnapshots correct gw rows acc).map WriteRec.progress := by
  intro rows
  induction rows with
  | nil => intro acc ws; simp [benchmark_model_go, mcSnapshots]
  | cons row rest ih =>
    intro acc ws
    by_cases hc : (dictGet correct row.id).isNone
    · simp only [benchmark_model_go, mcSnapshots, if_pos hc, ih]
    · rcases hg : get_model_answer (gw row.id) with _ | a
      · simp only [benchmark_model_go, mcSnapshots, if_neg hc, hg, ih]
      · simp only [benchmark_model_go, mcSnapshots, if_neg hc, hg, ih, List.map_cons,
          List.append_assoc, List.singleton_append]

/-- The number of snapshots is the number of successfully answered
rows. -/
theorem mcSnapshots_length (correct : List (String × Char)) (gw : String → Option String) :
    ∀ (rows : List QARow) (acc : List (String × Char)),
      (mcSnapshots correct gw rows acc).length =
        (rows.filter (fun r => mcSuccess correct gw r.id)).length := by
  intro rows
  induction rows with
  | nil => intro acc; simp [mcSnapshots]
  | cons row rest ih =>
    intro acc
    by_cases hc : (dictGet correct row.id).isNone
    · have hc2 : dictGet correct row.id = none := Option.isNone_iff_eq_none.mp hc
      have hmc : mcSuccess correct gw row.id = false := by simp [mcSuccess, hc2]
      simp [mcSnapshots, hc2, ih, List.filter_cons, hmc]
    · have hc2 : ¬ dictGet correct row.id = none := by
        simpa [Option.isNone_iff_eq_none] using hc
      rcases hg : get_model_answer (gw row.id) with _ | a
      · have hmc : mcSuccess correct gw row.id = false := by simp [mcSuccess, hg]
        simp [mcSnapshots, hc2, hg, ih, List.filter_cons, hmc]
      · have hmc : mcSuccess correct gw row.id = true := by
          simp only [mcSuccess, hg, Option.isSome_some, Bool.and_true]
          simpa using Option.ne_none_iff_isSome.mp hc2
        simp [mcSnapshots, hc2, hg, ih, List.filter_cons, hmc]

/-!
Free-form answer benchmark with rubric evaluation
(scripts/benchmark_free_answers.py and the second-method variant).
The binary-correctness extraction walks the lines of the evaluation
text; indexing line.split(colon)[1] raises IndexError when the matched
line contains no colon, which the per-item handler of the driver
catches.
-/

/-- Embedding of the binary-correctness extraction loop: scan the lines
for the first one starting (case-insensitively) with binary
correctness; without such a line the preset 0 is kept; on such a line
the flag is 1 exactly when the character 1 occurs in the segment
between the first and the second colon; a matched line without a colon
raises IndexError, modelled as an error value. -/
def extract_binary_correct_lines : List String → Except Unit Nat
  | [] => .ok 0
  | l :: ls =>
    if pyStartsWith (pyLower l) "binary correctness" then
      match pySplitCh ':' l with
      | _ :: seg :: _ => .ok (if containsChar seg '1' then 1 else 0)
      | _ => .error ()
    else extract_binary_correct_lines ls

/-- Embedding of the binary-correctness extraction of benchmark_model
in scripts/benchmark_free_answers.py, lines 158-172. -/
def extract_binary_correct (evaluation : String) : Except Unit Nat :=
  extract_binary_correct_lines (pySplitCh '\n' evaluation)

/-- Row of the free-answer dataset: id, question, reference answer. -/
structure FreeRow where
  id : String
  question : String
  answer : String
deriving DecidableEq, Inhabited, Repr

/-- Stored per-question record of the free-answer benchmark. -/
structure FreeItem where
  question : String
  reference_answer : String
  model_answer : String
  evaluation : String
  binary_correct : Nat
deriving DecidableEq, Repr

/-- Final results object of the free-answer benchmark (model name,
timestamp and processing time are not modelled). -/
structure FreeFinal where
  questions : List (String × FreeItem)
deriving DecidableEq, Repr

/-- One write of the free-answer output file. -/
inductive FreeWrite where
  | progress (questions : List (String × FreeItem))
  | finalW (res : FreeFinal)
deriving DecidableEq, Repr

/-- Is a free-answer write record an in-loop progress write? -/
def isProgressF : FreeWrite → Bool
  | .progress _ => true
  | .finalW _ => false

/-- Item loop of benchmark_model in scripts/benchmark_free_answers.py:
a falsy model answer skips the item without a write; a failed evaluator
call makes the subsequent slicing of None raise, caught by the per-item
handler which writes the current results; an IndexError of the
binary-correctness extraction is caught the same way; otherwise the
record is stored and the results written. -/
def benchmark_free_go (gwA gwE : String → Option String) :
    List FreeRow → List (String × FreeItem) → List FreeWrite →
      List (String × FreeItem) × List FreeWrite
  | [], qs, ws => (qs, ws)
  | row :: rest, qs, ws =>
    match gwA row.id with
    | none => benchmark_free_go gwA gwE rest qs ws
    | some ma =>
      if ma = "" then benchmark_free_go gwA gwE rest qs ws
      else
        match gwE row.id with
        | none => benchmark_free_go gwA gwE rest qs (ws ++ [FreeWrite.progress qs])
        | some ev =>
          match extract_binary_correct ev with
          | .error _ => benchmark_free_go gwA gwE rest qs (ws ++ [FreeWrite.progress qs])
          | .ok flag =>
            let qs2 := dictSet qs row.id ⟨row.question, row.answer, ma, ev, flag⟩
            benchmark_free_go gwA gwE rest qs2 (ws ++ [FreeWrite.progress qs2])

/-- Embedding of benchmark_model of scripts/benchmark_free_answers.py,
returning the final results and the write trace. -/
def benchmark_free (rows : List FreeRow) (gwA gwE : String → Option String) :
    FreeFinal × List FreeWrite :=
  let p := benchmark_free_go gwA gwE rows [] []
  let res : FreeFinal := ⟨p.1⟩
  (res, p.2 ++ [FreeWrite.finalW res])

/-- Does the free-answer loop store a record for key k. -/
def freeSuccess (gwA gwE : String → Option String) (k : String) : Bool :=
  match gwA k with
  | none => false
  | some ma =>
    if ma = "" then false
    else
      match gwE k with
      | none => false
      | some ev =>
        match extract_binary_correct ev with
        | .error _ => false
        | .ok _ => true

/-- Characterisation of presence in the stored results of the
free-answer loop. -/
theorem benchmark_free_go_isSome (gwA gwE : String → Option String) :
    ∀ (rows : List FreeRow) (qs : List (String × FreeItem)) (ws : List FreeWrite) (k : String),
      (dictGet (benchmark_free_go gwA gwE rows qs ws).1 k).isSome =
        ((rows.any (fun r => r.id == k) && freeSuccess gwA gwE k)
          || (dictGet qs k).isSome) := by
  intro rows
  induction rows with
  | nil => intro qs ws k; simp [benchmark_free_go]
  | cons row rest ih =>
    intro qs ws k
    by_cases hid : row.id = k
    · subst hid
      rcases ha : gwA row.id with _ | ma
      · have hfs : freeSuccess gwA gwE row.id = false := by simp [freeSuccess, ha]
        simp only [benchmark_free_go, ha, ih, hfs, Bool.and_false, Bool.false_or]
      · by_cases hma : ma = ""
        · have hfs : freeSuccess gwA gwE row.id = false := by simp [freeSuccess, ha, hma]
          simp only [benchmark_free_go, ha, if_pos hma, ih, hfs, Bool.and_false, Bool.false_or]
        · rcases he : gwE row.id with _ | ev
          · have hfs : freeSuccess gwA gwE row.id = false := by
              simp [freeSuccess, ha, hma, he]
            simp only [benchmark_free_go, ha, if_neg hma, he, ih, hfs, Bool.and_false,
              Bool.false_or]
          · rcases hx : extract_binary_correct ev with e | flag
            · have hfs : freeSuccess gwA gwE row.id = false := by
                simp [freeSuccess, ha, hma, he, hx]
              simp only [benchmark_free_go, ha, if_neg hma, he, hx, ih, hfs, Bool.and_false,
                Bool.false_or]
            · have hfs : freeSuccess gwA gwE row.id = true := by
                simp [freeSuccess, ha, hma, he, hx]
              simp only [benchmark_free_go, ha, if_neg hma, he, hx, ih, hfs, Bool.and_true]
              by_cases hr : rest.any (fun r => r.id == row.id)
              · simp [hr]
              · simp [hr, dictGet_set_self]
    · have hb : (row.id == k) = false := str_beq_false hid
      rcases ha : gwA row.id with _ | ma
      · simp only [benchmark_free_go, ha, ih, List.any_cons, hb, Bool.false_or]
      · by_cases hma : ma = ""
        · simp only [benchmark_free_go, ha, if_pos hma, ih, List.any_cons, hb, Bool.false_or]
        · rcases he : gwE row.id with _ | ev
          · simp only [benchmark_free_go, ha, if_neg hma, he, ih, List.any_cons, hb,
              Bool.false_or]
          · rcases hx : extract_binary_correct ev with e | flag
            · simp only [benchmark_free_go, ha, if_neg hma, he, hx, ih, List.any_cons, hb,
                Bool.false_or]
            · simp only [benchmark_free_go, ha, if_neg hma, he, hx, ih, List.any_cons, hb,
                Bool.false_or]
              rw [dictGet_set_ne _ _ _ _ (fun hh => hid hh.symm)]

/-- Claim C3: when the gateway call fails persistently for one item,
neither batch driver aborts: the failing item is left unanswered, every
other item is still processed to completion (its answer or record is
present in the final results), the evaluation summary is computed from
the accumulated answers, and the final write is emitted. -/
theorem C3_no_abort :
    (∀ (rows : List QARow) (correct : List (String × Char)) (gw : String → Option String)
        (fail : QARow), fail ∈ rows →
        gw fail.id = none →
        (∀ r ∈ rows, (dictGet correct r.id).isSome) →
        (∀ r ∈ rows, r.id ≠ fail.id → (get_model_answer (gw r.id)).isSome) →
        (∀ r ∈ rows, r.id ≠ fail.id →
            (dictGet (benchmark_model rows correct gw).1.answers r.id).isSome)
        ∧ dictGet (benchmark_model rows correct gw).1.answers fail.id = none
        ∧ (benchmark_model rows correct gw).1.evaluation =
            evaluate_model (benchmark_model rows correct gw).1.answers correct
        ∧ (benchmark_model rows correct gw).2.getLast? =
            some (WriteRec.finalW (benchmark_model rows correct gw).1))
    ∧ (∀ (rows : List FreeRow) (gwA gwE : String → Option String) (fail : FreeRow),
        fail ∈ rows →
        gwA fail.id = none →
        (∀ r ∈ rows, r.id ≠ fail.id → freeSuccess gwA gwE r.id = true) →
        (∀ r ∈ rows, r.id ≠ fail.id →
            (dictGet (benchmark_free rows gwA gwE).1.questions r.id).isSome)
        ∧ dictGet (benchmark_free rows gwA gwE).1.questions fail.id = none
        ∧ (benchmark_free rows gwA gwE).2.getLast? =
            some (FreeWrite.finalW (benchmark_free rows gwA gwE).1)) := by
  constructor
  · intro rows correct gw fail hmem hfail hcorr hok
    have hga : get_model_answer (gw fail.id) = none := by
      rw [hfail]; rfl
    have hans : (benchmark_model rows correct gw).1.answers =
        (benchmark_model_go correct gw rows [] []).1 := rfl
    refine ⟨?_, ?_, rfl, ?_⟩
    · intro r hr hne
      rw [hans, benchmark_model_go_get]
      have hany : rows.any (fun q => q.id == r.id) = true := by
        simp only [List.any_eq_true]
        exact ⟨r, hr, by simp⟩
      have hmc : mcSuccess correct gw r.id = true := by
        simp [mcSuccess, hcorr r hr, hok r hr hne]
      rw [hany, hmc]
      simpa using hok r hr hne
    · rw [hans, benchmark_model_go_get]
      have hmc : mcSuccess correct gw fail.id = false := by
        simp [mcSuccess, hga]
      rw [hmc]
      simp [dictGet]
    · show ((benchmark_model_go correct gw rows [] []).2
        ++ [WriteRec.finalW (benchmark_model rows correct gw).1]).getLast? = _
      rw [List.getLast?_concat]
  · intro rows gwA gwE fail hmem hfail hsucc
    have hq : (benchmark_free rows gwA gwE).1.questions =
        (benchmark_free_go gwA gwE rows [] []).1 := rfl
    refine ⟨?_, ?_, ?_⟩
    · intro r hr hne
      rw [hq, benchmark_free_go_isSome]
      have hany : rows.any (fun q => q.id == r.id) = true := by
        simp only [List.any_eq_true]
        exact ⟨r, hr, by simp⟩
      simp [hany, hsucc r hr hne]
    · have hfs : freeSuccess gwA gwE fail.id = false := by simp [freeSuccess, hfail]
      have h1 := benchmark_free_go_isSome gwA gwE rows [] [] fail.id
      rw [hfs] at h1
      simp only [Bool.and_false, Bool.false_or, dictGet, List.find?, Option.map_none] at h1
      rw [hq]
      exact Option.not_isSome_iff_eq_none.mp (by simp [h1, dictGet])
    · show ((benchmark_free_go gwA gwE rows [] []).2
        ++ [FreeWrite.finalW (benchmark_free rows gwA gwE).1]).getLast? = _
      rw [List.getLast?_concat]

/-- Ten-item dataset of the spec example for claim C3. -/
def c3Rows : List QARow :=
  (List.range 10).map (fun i => ⟨toString (i + 1), "q", "a", "b", "c", "d"⟩)

/-- Correct-answer mapping of the spec example for claim C3. -/
def c3Correct : List (String × Char) :=
  (List.range 10).map (fun i => (toString (i + 1), 'A'))

/-- Gateway of the spec example for claim C3: item 5 always fails with
a transport error, every other item answers B. -/
def c3Gw (k : String) : Option String := if k = "5" then none else some "B"

/-- Free-answer rows for the witness of claim C3. -/
def c3FreeRows : List FreeRow := [⟨"1", "q", "a"⟩, ⟨"2", "q", "a"⟩, ⟨"3", "q", "a"⟩]

/-- Free-answer gateway for the witness of claim C3: item 2 fails. -/
def c3GwA (k : String) : Option String := if k = "2" then none else some "an answer"

/-- Evaluator gateway for the witness of claim C3. -/
def c3GwE (_ : String) : Option String := some "Binary Correctness: 1 - correct"

/-- Witness for claim C3: the spec example with ten items where item 5
persistently fails, and a three-item free-answer run where item 2
persistently fails. -/
theorem C3_no_abort_witness :
    ((⟨"5", "q", "a", "b", "c", "d"⟩ : QARow) ∈ c3Rows
      ∧ (∀ r ∈ c3Rows, r.id ≠ "5" →
          (dictGet (benchmark_model c3Rows c3Correct c3Gw).1.answers r.id).isSome)
      ∧ dictGet (benchmark_model c3Rows c3Correct c3Gw).1.answers "5" = none)
    ∧ ((⟨"2", "q", "a"⟩ : FreeRow) ∈ c3FreeRows
      ∧ (∀ r ∈ c3FreeRows, r.id ≠ "2" →
          (dictGet (benchmark_free c3FreeRows c3GwA c3GwE).1.questions r.id).isSome)
      ∧ dictGet (benchmark_free c3FreeRows c3GwA c3GwE).1.questions "2" = none) := by
  have h1 := C3_no_abort.1 c3Rows c3Correct c3Gw ⟨"5", "q", "a", "b", "c", "d"⟩
    (by decide) (by decide) (by decide) (by decide)
  have h2 := C3_no_abort.2 c3FreeRows c3GwA c3GwE ⟨"2", "q", "a"⟩
    (by decide) (by decide) (by decide)
  exact ⟨⟨by decide, h1.1, h1.2.1⟩, ⟨by decide, h2.1, h2.2.1⟩⟩

/-!
Translation pipeline of translate_finetuning_data.py.  The dataset is a
list of rows with question id, question and model answer; translations
are driven by a per-text attempt oracle fed to translate_text.  The
loop processes rows in batches of two: first the questions of the
batch, then the answers, writing the whole table after every single
translation; a failed translation keeps the original text.
-/

/-- Input row of the finetuning dataset. -/
structure TRow where
  question_id : String
  question : String
  model_answer : String
deriving DecidableEq, Inhabited, Repr

/-- Working row with the two translated columns added. -/
structure TRowOut where
  question_id : String
  question : String
  model_answer : String
  question_english : String
  model_answer_english : String
deriving DecidableEq, Inhabited, Repr

/-- One write of the translation output file: an in-loop snapshot of
the working table, or the final write of the renamed English
columns. -/
inductive TWrite where
  | progress (rows : List TRowOut)
  | finalW (rows : List TRow)
deriving DecidableEq, Repr

/-- Is a translation write record an in-loop progress write? -/
def isProgressT : TWrite → Bool
  | .progress _ => true
  | .finalW _ => false

/-- Batches of two consecutive indices, as range(0, n, 2) with
slice [i, min(i+2, n)) produces. -/
def chunks2 : List Nat → List (List Nat)
  | [] => []
  | [a] => [[a]]
  | a :: b :: rest => [a, b] :: chunks2 rest

/-- Question phase of one batch: translate the question of every row of
the batch, store the translation (or keep the original on failure) and
write the table. -/
def transQPhase (tr : String → Option String) :
    List Nat → List TRowOut → List TWrite → List TRowOut × List TWrite
  | [], t, ws => (t, ws)
  | i :: is, t, ws =>
    let row := t.getD i default
    let res := tr row.question
    let newV := if pyTruthy res then res.getD "" else row.question
    let t2 := t.set i { row with question_english := newV }
    transQPhase tr is t2 (ws ++ [TWrite.progress t2])

/-- Answer phase of one batch, analogous to the question phase. -/
def transAPhase (tr : String → Option String) :
    List Nat → List TRowOut → List TWrite → List TRowOut × List TWrite
  | [], t, ws => (t, ws)
  | i :: is, t, ws =>
    let row := t.getD i default
    let res := tr row.model_answer
    let newV := if pyTruthy res then res.getD "" else row.model_answer
    let t2 := t.set i { row with model_answer_english := newV }
    transAPhase tr is t2 (ws ++ [TWrite.progress t2])

/-- Batch loop of translate_dataset: per batch, the question phase then
the answer phase. -/
def translate_dataset_go (tr : String → Option String) :
    List (List Nat) → List TRowOut → List TWrite → List TRowOut × List TWrite
  | [], t, ws => (t, ws)
  | chunk :: rest, t, ws =>
    let p1 := transQPhase tr chunk t ws
    let p2 := transAPhase tr chunk p1.1 p1.2
    translate_dataset_go tr rest p2.1 p2.2

/-- Embedding of translate_dataset of translate_finetuning_data.py: the
working table starts with empty English columns, the batch loop runs
over batches of two, and the final English dataset with renamed columns
is written last and returned. -/
def translate_dataset (att : String → Nat → ApiOutcome) (rows : List TRow) :
    List TRow × List TWrite :=
  let tr := fun text => (translate_text_run (att text)).1
  let t0 := rows.map (fun r => (⟨r.question_id, r.question, r.model_answer, "", ""⟩ : TRowOut))
  let p := translate_dataset_go tr (chunks2 (List.range rows.length)) t0 []
  let english := p.1.map
    (fun r => (⟨r.question_id, r.question_english, r.model_answer_english⟩ : TRow))
  (english, p.2 ++ [TWrite.finalW english])

/-- Reading the element just set. -/
theorem getD_set_self {α : Type} [Inhabited α] (t : List α) (i : Nat) (v : α)
    (h : i < t.length) : (t.set i v).getD i default = v := by
  simp [List.getD_eq_getElem?_getD, List.getElem?_set_self h]

/-- Reading another element after a set. -/
theorem getD_set_ne {α : Type} [Inhabited α] (t : List α) (i j : Nat) (v : α)
    (h : i ≠ j) : (t.set i v).getD j default = t.getD j default := by
  simp [List.getD_eq_getElem?_getD, List.getElem?_set_ne h]

/-- Reading through a map at a valid index. -/
theorem getD_map_lt {α β : Type} [Inhabited α] [Inhabited β] (f : α → β) (t : List α)
    (i : Nat) (h : i < t.length) : (t.map f).getD i default = f (t.getD i default) := by
  simp only [List.getD_eq_getElem?_getD, List.getElem?_map]
  rw [List.getElem?_eq_getElem h]
  rfl

/-- Result of one translation attempt sequence on one text: the
translated text on success, the original on failure, as the call sites
of translate_text store it. -/
def trKeep (tr : String → Option String) (q : String) : String :=
  if pyTruthy (tr q) then (tr q).getD "" else q

/-- The question phase preserves the table length. -/
theorem transQPhase_length (tr : String → Option String) :
    ∀ (is : List Nat) (t : List TRowOut) (ws : List TWrite),
      (transQPhase tr is t ws).1.length = t.length := by
  intro is
  induction is with
  | nil => intro t ws; rfl
  | cons i is ih => intro t ws; rw [transQPhase, ih]; simp

/-- The answer phase preserves the table length. -/
theorem transAPhase_length (tr : String → Option String) :
    ∀ (is : List Nat) (t : List TRowOut) (ws : List TWrite),
      (transAPhase tr is t ws).1.length = t.length := by
  intro is
  induction is with
  | nil => intro t ws; rfl
  | cons i is ih => intro t ws; rw [transAPhase, ih]; simp

/-- Description of the question phase: each listed index gets its
English question filled from its (unchanged) original question, other
rows are untouched. -/
theorem transQPhase_desc (tr : String → Option String) :
    ∀ (is : List Nat) (t : List TRowOut) (ws : List TWrite), is.Nodup →
      (∀ i ∈ is, i < t.length) → ∀ j,
      (transQPhase tr is t ws).1.getD j default =
        if j ∈ is then
          { t.getD j default with
            question_english := trKeep tr (t.getD j default).question }
        else t.getD j default := by
  intro is
  induction is with
  | nil => intro t ws _ _ j; simp [transQPhase]
  | cons i is ih =>
    intro t ws hnd hlt j
    have hi : i < t.length := hlt i (List.mem_cons_self i is)
    have hnd2 : is.Nodup := (List.nodup_cons.mp hnd).2
    have hni : i ∉ is := (List.nodup_cons.mp hnd).1
    rw [transQPhase]
    rw [ih _ _ hnd2 (fun x hx => by
      rw [List.length_set]; exact hlt x (List.mem_cons_of_mem i hx))]
    by_cases hji : j = i
    · subst hji
      rw [if_neg hni, if_pos (List.mem_cons_self j is), getD_set_self _ _ _ hi]
      simp [trKeep]
    · by_cases hjs : j ∈ is
      · rw [if_pos hjs, if_pos (List.mem_cons_of_mem i hjs),
            getD_set_ne _ _ _ _ (fun hh => hji hh.symm)]
      · rw [if_neg hjs, getD_set_ne _ _ _ _ (fun hh => hji hh.symm),
            if_neg (show ¬ j ∈ i :: is from by simp [hji, hjs])]

/-- Description of the answer phase, analogous. -/
theorem transAPhase_desc (tr : String → Option String) :
    ∀ (is : List Nat) (t : List TRowOut) (ws : List TWrite), is.Nodup →
      (∀ i ∈ is, i < t.length) → ∀ j,
      (transAPhase tr is t ws).1.getD j default =
        if j ∈ is then
          { t.getD j default with
            model_answer_english := trKeep tr (t.getD j default).model_answer }
        else t.getD j default := by
  intro is
  induction is with
  | nil => intro t ws _ _ j; simp [transAPhase]
  | cons i is ih =>
    intro t ws hnd hlt j
    have hi : i < t.length := hlt i (List.mem_cons_self i is)
    have hnd2 : is.Nodup := (List.nodup_cons.mp hnd).2
    have hni : i ∉ is := (List.nodup_cons.mp hnd).1
    rw [transAPhase]
    rw [ih _ _ hnd2 (fun x hx => by
      rw [List.length_set]; exact hlt x (List.mem_cons_of_mem i hx))]
    by_cases hji : j = i
    · subst hji
      rw [if_neg hni, if_pos (List.mem_cons_self j is), getD_set_self _ _ _ hi]
      simp [trKeep]
    · by_cases hjs : j ∈ is
      · rw [if_pos hjs, if_pos (List.mem_cons_of_mem i hjs),
            getD_set_ne _ _ _ _ (fun hh => hji hh.symm)]
      · rw [if_neg hjs, getD_set_ne _ _ _ _ (fun hh => hji hh.symm),
            if_neg (show ¬ j ∈ i :: is from by simp [hji, hjs])]

/-- Joining the batches of two gives back the index list. -/
theorem chunks2_join : ∀ l : List Nat, (chunks2 l).flatten = l
  | [] => rfl
  | [a] => rfl
  | a :: b :: rest => by
    simp [chunks2, chunks2_join rest]

/-- Description of the batch loop: every index appearing in some batch
gets both its English columns filled from its original columns, other
rows are untouched. -/
theorem translate_dataset_go_desc (tr : String → Option String) :
    ∀ (chunksL : List (List Nat)) (t : List TRowOut) (ws : List TWrite),
      (chunksL.flatten).Nodup →
      (∀ c ∈ chunksL, ∀ i ∈ c, i < t.length) → ∀ j,
      (translate_dataset_go tr chunksL t ws).1.getD j default =
        if j ∈ chunksL.flatten then
          { t.getD j default with
            question_english := trKeep tr (t.getD j default).question,
            model_answer_english := trKeep tr (t.getD j default).model_answer }
        else t.getD j default := by
  intro chunksL
  induction chunksL with
  | nil => intro t ws _ _ j; simp [translate_dataset_go, List.flatten]
  | cons chunk rest ih =>
    intro t ws hnd hlt j
    have hjoin : (chunk ++ rest.flatten).Nodup := by simpa [List.flatten] using hnd
    have hcn : chunk.Nodup := (List.nodup_append.mp hjoin).1
    have hrn : rest.flatten.Nodup := (List.nodup_append.mp hjoin).2.1
    have hdisj : chunk.Disjoint rest.flatten := (List.nodup_append.mp hjoin).2.2
    have hclt : ∀ i ∈ chunk, i < t.length := hlt chunk (List.mem_cons_self chunk rest)
    rw [translate_dataset_go]
    have hq := transQPhase_desc tr chunk t ws hcn hclt
    have hqlen := transQPhase_length tr chunk t ws
    have halt : ∀ i ∈ chunk, i < (transQPhase tr chunk t ws).1.length := by
      rw [hqlen]; exact hclt
    have ha := transAPhase_desc tr chunk (transQPhase tr chunk t ws).1
      (transQPhase tr chunk t ws).2 hcn halt
    have halen := transAPhase_length tr chunk (transQPhase tr chunk t ws).1
      (transQPhase tr chunk t ws).2
    have hrecl : ∀ c ∈ rest, ∀ i ∈ c, i <
        (transAPhase tr chunk (transQPhase tr chunk t ws).1
          (transQPhase tr chunk t ws).2).1.length := by
      rw [halen, hqlen]
      exact fun c hc => hlt c (List.mem_cons_of_mem chunk hc)
    rw [ih _ _ hrn hrecl]
    by_cases hjr : j ∈ rest.flatten
    · have hjc : j ∉ chunk := fun hc => hdisj hc hjr
      rw [if_pos hjr, ha j, if_neg hjc, hq j, if_neg hjc,
          if_pos (by simp [List.flatten, List.mem_append, hjr])]
    · rw [if_neg hjr, ha j]
      by_cases hjc : j ∈ chunk
      · rw [if_pos hjc, hq j, if_pos hjc,
            if_pos (by simp [List.flatten, List.mem_append, hjc])]
      · rw [if_neg hjc, hq j, if_neg hjc,
            if_neg (by simp [List.flatten, List.mem_append, hjc, hjr])]

/-- The batch loop preserves the table length. -/
theorem translate_dataset_go_length (tr : String → Option String) :
    ∀ (chunksL : List (List Nat)) (t : List TRowOut) (ws : List TWrite),
      (translate_dataset_go tr chunksL t ws).1.length = t.length := by
  intro chunksL
  induction chunksL with
  | nil => intro t ws; rfl
  | cons chunk rest ih =>
    intro t ws
    rw [translate_dataset_go, ih, transAPhase_length, transQPhase_length]

/-- Per-row description of the final English dataset: the id is kept,
the question and answer columns hold the translation on success and the
original text on failure. -/
theorem translate_dataset_table (att : String → Nat → ApiOutcome) (rows : List TRow)
    (idx : Nat) (h : idx < rows.length) :
    (translate_dataset att rows).1.getD idx default =
      ⟨(rows.getD idx default).question_id,
       trKeep (fun text => (translate_text_run (att text)).1) (rows.getD idx default).question,
       trKeep (fun text => (translate_text_run (att text)).1)
         (rows.getD idx default).model_answer⟩ := by
  unfold translate_dataset
  simp only []
  set tr := fun text => (translate_text_run (att text)).1 with htr
  set t0 := rows.map
    (fun r => (⟨r.question_id, r.question, r.model_answer, "", ""⟩ : TRowOut)) with ht0
  have ht0len : t0.length = rows.length := by rw [ht0, List.length_map]
  have hgolen := translate_dataset_go_length tr (chunks2 (List.range rows.length)) t0 []
  have hidx : idx < (translate_dataset_go tr (chunks2 (List.range rows.length)) t0 []).1.length := by
    rw [hgolen, ht0len]; exact h
  rw [getD_map_lt _ _ _ hidx]
  have hdesc := translate_dataset_go_desc tr (chunks2 (List.range rows.length)) t0 []
    (by rw [chunks2_join]; exact List.nodup_range _)
    (by
      intro c hc i hi
      have : i ∈ (chunks2 (List.range rows.length)).flatten := List.mem_flatten.mpr ⟨c, hc, hi⟩
      rw [chunks2_join, List.mem_range] at this
      rw [ht0len]
      exact this)
    idx
  have hmem : idx ∈ (chunks2 (List.range rows.length)).flatten := by
    rw [chunks2_join]; exact List.mem_range.mpr h
  rw [if_pos hmem] at hdesc
  have hbase : t0.getD idx default =
      (⟨(rows.getD idx default).question_id, (rows.getD idx default).question,
        (rows.getD idx default).model_answer, "", ""⟩ : TRowOut) := by
    rw [ht0, getD_map_lt _ _ _ h]
  rw [hbase] at hdesc
  simp only [hdesc]

/-- The question phase writes the table once per index, after every
translation, successful or not. -/
theorem transQPhase_writes (tr : String → Option String) :
    ∀ (is : List Nat) (t : List TRowOut) (ws : List TWrite),
      ((transQPhase tr is t ws).2.filter isProgressT).length =
        (ws.filter isProgressT).length + is.length := by
  intro is
  induction is with
  | nil => intro t ws; simp [transQPhase]
  | cons i is ih =>
    intro t ws
    rw [transQPhase, ih]
    simp [List.filter_append, isProgressT]
    omega

/-- The answer phase writes the table once per index. -/
theorem transAPhase_writes (tr : String → Option String) :
    ∀ (is : List Nat) (t : List TRowOut) (ws : List TWrite),
      ((transAPhase tr is t ws).2.filter isProgressT).length =
        (ws.filter isProgressT).length + is.length := by
  intro is
  induction is with
  | nil => intro t ws; simp [transAPhase]
  | cons i is ih =>
    intro t ws
    rw [transAPhase, ih]
    simp [List.filter_append, isProgressT]
    omega

/-- The batch loop writes the table twice per processed index. -/
theorem translate_dataset_go_writes (tr : String → Option String) :
    ∀ (chunksL : List (List Nat)) (t : List TRowOut) (ws : List TWrite),
      ((translate_dataset_go tr chunksL t ws).2.filter isProgressT).length =
        (ws.filter isProgressT).length + 2 * chunksL.flatten.length := by
  intro chunksL
  induction chunksL with
  | nil => intro t ws; simp [translate_dataset_go]
  | cons chunk rest ih =>
    intro t ws
    rw [translate_dataset_go, ih, transAPhase_writes, transQPhase_writes]
    simp [List.flatten]
    omega

/-- Embedding of translate_with_openrouter of
prepare_finetuning_dataset.py: one attempt, the translated content on
success and the original text on any exception, with no retry. -/
def translate_with_openrouter (outcome : ApiOutcome) (text : String) : String :=
  match outcome with
  | .ok t => t
  | _ => text

/-- Claim C4 (amended): benchmark_model rewrites the output file after
every successfully answered item with the accumulated answers so far
(the trace of in-loop writes is exactly the snapshot list of successful
items), but emits no write after an item whose answer could not be
obtained; the final write holds the results with aggregate metrics.
translate_dataset rewrites its output after every single translation,
successful or failed, twice per row, and its final write holds the
English dataset. -/
theorem C4_incremental_writes :
    (∀ (rows : List QARow) (correct : List (String × Char)) (gw : String → Option String),
        (benchmark_model rows correct gw).2 =
          (mcSnapshots correct gw rows []).map WriteRec.progress
            ++ [WriteRec.finalW (benchmark_model rows correct gw).1]
        ∧ ((benchmark_model rows correct gw).2.filter isProgressW).length =
            (rows.filter (fun r => mcSuccess correct gw r.id)).length
        ∧ (benchmark_model rows correct gw).2.getLast? =
            some (WriteRec.finalW (benchmark_model rows correct gw).1))
    ∧ (∀ (att : String → Nat → ApiOutcome) (rows : List TRow),
        ((translate_dataset att rows).2.filter isProgressT).length = 2 * rows.length
        ∧ (translate_dataset att rows).2.getLast? =
            some (TWrite.finalW (translate_dataset att rows).1)) := by
  constructor
  · intro rows correct gw
    have hw : (benchmark_model rows correct gw).2 =
        (benchmark_model_go correct gw rows [] []).2
          ++ [WriteRec.finalW (benchmark_model rows correct gw).1] := rfl
    have hgo := benchmark_model_go_writes correct gw rows [] []
    refine ⟨?_, ?_, ?_⟩
    · rw [hw, hgo]
      simp
    · rw [hw, hgo]
      simp only [List.nil_append, List.filter_append]
      rw [← mcSnapshots_length correct gw rows []]
      simp [List.filter_map, isProgressW, Function.comp, List.filter_cons]
    · rw [hw, List.getLast?_concat]
  · intro att rows
    have hw2 : (translate_dataset att rows).2 =
        (translate_dataset_go (fun text => (translate_text_run (att text)).1)
          (chunks2 (List.range rows.length))
          (rows.map (fun r =>
            (⟨r.question_id, r.question, r.model_answer, "", ""⟩ : TRowOut))) []).2
          ++ [TWrite.finalW (translate_dataset att rows).1] := rfl
    constructor
    · rw [hw2, List.filter_append, List.length_append, translate_dataset_go_writes]
      simp [isProgressT, chunks2_join]
    · rw [hw2, List.getLast?_concat]

/-- Two-row dataset for the counterexample of claim C4. -/
def c4Rows : List QARow :=
  [⟨"1", "q", "a", "b", "c", "d"⟩, ⟨"2", "q", "a", "b", "c", "d"⟩]

/-- Correct answers for the counterexample of claim C4. -/
def c4Correct : List (String × Char) := [("1", 'A'), ("2", 'A')]

/-- Gateway for the counterexample of claim C4: item 1 fails, item 2
answers. -/
def c4Gw (k : String) : Option String := if k = "1" then none else some "B"

/-- Counterexample for claim C4 as stated: on a two-item run where item
1 gets no answer, both items are processed (both pass the
correct-answers check) but the loop writes the output file only once,
not after every processed item. -/
theorem C4_counterexample :
    c4Rows.length = 2
    ∧ (∀ r ∈ c4Rows, (dictGet c4Correct r.id).isSome)
    ∧ ((benchmark_model c4Rows c4Correct c4Gw).2.filter isProgressW).length = 1
    ∧ (1 : Nat) ≠ 2 := by
  refine ⟨rfl, by decide, by decide, by decide⟩

/-- A failed translation keeps the original text. -/
theorem trKeep_none {tr : String → Option String} {q : String} (h : tr q = none) :
    trKeep tr q = q := by
  simp [trKeep, h, pyTruthy]

/-- A kept or translated text is nonempty when the original is. -/
theorem trKeep_ne_empty {tr : String → Option String} {q : String} (h : q ≠ "") :
    trKeep tr q ≠ "" := by
  unfold trKeep
  rcases ht : tr q with _ | s
  · simpa [pyTruthy] using h
  · by_cases hs : s = ""
    · simpa [pyTruthy, hs] using h
    · simp [pyTruthy, hs]

/-- Claim C6: when translating a text fails after all retry attempts,
translate_dataset stores the original untranslated text in the English
column of that row and continues; a translation failure never empties a
row. The one-shot translate_with_openrouter of
prepare_finetuning_dataset.py likewise returns the original text on any
failure. -/
theorem C6_keep_original :
    (∀ (att : String → Nat → ApiOutcome) (rows : List TRow) (idx : Nat), idx < rows.length →
        ((translate_text_run (att (rows.getD idx default).question)).1 = none →
          ((translate_dataset att rows).1.getD idx default).question =
            (rows.getD idx default).question)
        ∧ ((translate_text_run (att (rows.getD idx default).model_answer)).1 = none →
          ((translate_dataset att rows).1.getD idx default).model_answer =
            (rows.getD idx default).model_answer)
        ∧ ((rows.getD idx default).question ≠ "" →
            ((translate_dataset att rows).1.getD idx default).question ≠ "")
        ∧ ((rows.getD idx default).model_answer ≠ "" →
            ((translate_dataset att rows).1.getD idx default).model_answer ≠ ""))
    ∧ (∀ (outcome : ApiOutcome) (text : String), isOkOutcome outcome = false →
        translate_with_openrouter outcome text = text) := by
  constructor
  · intro att rows idx h
    have htab := translate_dataset_table att rows idx h
    refine ⟨?_, ?_, ?_, ?_⟩
    · intro hfail
      rw [htab]
      show trKeep (fun text => (translate_text_run (att text)).1)
        (rows.getD idx default).question = (rows.getD idx default).question
      exact @trKeep_none (fun text => (translate_text_run (att text)).1)
        ((rows.getD idx default).question) hfail
    · intro hfail
      rw [htab]
      show trKeep (fun text => (translate_text_run (att text)).1)
        (rows.getD idx default).model_answer = (rows.getD idx default).model_answer
      exact @trKeep_none (fun text => (translate_text_run (att text)).1)
        ((rows.getD idx default).model_answer) hfail
    · intro hne
      rw [htab]
      show trKeep (fun text => (translate_text_run (att text)).1)
        (rows.getD idx default).question ≠ ""
      exact trKeep_ne_empty hne
    · intro hne
      rw [htab]
      show trKeep (fun text => (translate_text_run (att text)).1)
        (rows.getD idx default).model_answer ≠ ""
      exact trKeep_ne_empty hne
  · intro outcome text hfail
    cases outcome <;> simp_all [translate_with_openrouter, isOkOutcome]

/-- Witness for claim C6: one row whose translations always time out is
kept verbatim, and a connection error leaves translate_with_openrouter
returning its input. -/
theorem C6_keep_original_witness :
    ((0 : Nat) < ([⟨"1", "quelle question", "une réponse"⟩] : List TRow).length)
    ∧ ((translate_dataset (fun _ _ => ApiOutcome.timeout)
        [⟨"1", "quelle question", "une réponse"⟩]).1.getD 0 default).question =
        "quelle question"
    ∧ ((translate_dataset (fun _ _ => ApiOutcome.timeout)
        [⟨"1", "quelle question", "une réponse"⟩]).1.getD 0 default).model_answer =
        "une réponse"
    ∧ translate_with_openrouter ApiOutcome.connError "bonjour" = "bonjour" := by
  have h := C6_keep_original.1 (fun _ _ => ApiOutcome.timeout)
    [⟨"1", "quelle question", "une réponse"⟩] 0 (by decide)
  refine ⟨by decide, h.1 (by decide), h.2.1 (by decide), ?_⟩
  exact C6_keep_original.2 ApiOutcome.connError "bonjour" (by decide)

/-!
Credential guard.  The main block of scripts/benchmark_models.py only
invokes benchmark_model when the OpenRouter key is present, and
call_openrouter itself raises ValueError before issuing any request
when the key is missing; FinetuningDataTranslator.__init__ exits the
process when the key is missing.
-/

/-- Embedding of the main guard of scripts/benchmark_models.py: with a
missing key an error is printed and benchmark_model is never called;
with a key the benchmark runs. -/
def benchmark_models_main (key : Option String) (rows : List QARow)
    (correct : List (String × Char)) (gw : String → Option String) :
    Option (MCFinal × List WriteRec) :=
  match key with
  | none => none
  | some _ => some (benchmark_model rows correct gw)

/-- Configuration held by FinetuningDataTranslator after construction
(file paths are not modelled). -/
structure TranslatorState where
  api_key : String
  model : String
deriving DecidableEq, Repr

/-- Embedding of FinetuningDataTranslator.__init__ of
translate_finetuning_data.py: sys.exit(1) on a missing key, otherwise
the configured state. -/
def translator_init (key : Option String) : Except Unit TranslatorState :=
  match key with
  | none => .error ()
  | some k => .ok ⟨k, "google/gemini-2.5-flash-preview"⟩

/-- Claim C5: a missing API credential is detected before any item is
processed: the benchmark main does not start the loop (no results
object and no write is produced), the translator constructor exits, and
call_openrouter raises before issuing a request, so no gateway call is
attempted without a configured credential; with a credential present
the run proceeds. -/
theorem C5_missing_credential :
    (∀ (rows : List QARow) (correct : List (String × Char)) (gw : String → Option String),
        benchmark_models_main none rows correct gw = none)
    ∧ translator_init none = .error ()
    ∧ (∀ oracle : Nat → ApiOutcome, call_openrouter_run none oracle =
        .error "OpenRouter API key not found in environment variables")
    ∧ (∀ (key : String) (rows : List QARow) (correct : List (String × Char))
        (gw : String → Option String),
        benchmark_models_main (some key) rows correct gw =
          some (benchmark_model rows correct gw))
    ∧ translator_init (some "k") = .ok ⟨"k", "google/gemini-2.5-flash-preview"⟩ :=
  ⟨fun _ _ _ => rfl, rfl, fun _ => rfl, fun _ _ _ _ => rfl, rfl⟩

/-- First line of the evaluation starting with binary correctness,
case-insensitively. -/
def firstBCLine (lines : List String) : Option String :=
  lines.find? (fun l => pyStartsWith (pyLower l) "binary correctness")

/-- Without a binary-correctness line the preset flag 0 is kept. -/
theorem extract_lines_none : ∀ {lines : List String}, firstBCLine lines = none →
    extract_binary_correct_lines lines = .ok 0 := by
  intro lines
  induction lines with
  | nil => intro _; rfl
  | cons l ls ih =>
    intro h
    rw [firstBCLine, List.find?] at h
    rw [extract_binary_correct_lines]
    cases hp : pyStartsWith (pyLower l) "binary correctness" with
    | true => rw [hp] at h; simp at h
    | false =>
      rw [hp] at h
      simp only [Bool.false_eq_true, if_false]
      exact ih h

/-- The extraction is decided by the first binary-correctness line. -/
theorem extract_lines_some : ∀ {lines : List String} {l : String},
    firstBCLine lines = some l →
    extract_binary_correct_lines lines =
      (match pySplitCh ':' l with
       | _ :: seg :: _ => .ok (if containsChar seg '1' then 1 else 0)
       | _ => .error ()) := by
  intro lines
  induction lines with
  | nil => intro l h; simp [firstBCLine, List.find?] at h
  | cons l0 ls ih =>
    intro l h
    rw [firstBCLine, List.find?] at h
    rw [extract_binary_correct_lines]
    cases hp : pyStartsWith (pyLower l0) "binary correctness" with
    | true =>
      rw [hp] at h
      simp only [Option.some.injEq] at h
      subst h
      simp only [if_true]
    | false =>
      rw [hp] at h
      simp only [Bool.false_eq_true, if_false]
      exact ih h

/-- Claim C7 (amended): when no line of the evaluation starts with
binary correctness (case-insensitively) the extracted flag is the safe
sentinel 0; when such a line exists the flag is 1 exactly when the
character 1 occurs anywhere in the segment between the first and the
second colon of that line, which can disagree with the reported score;
a matched line without any colon raises IndexError, which the per-item
handler of the driver catches, so extraction failures are never fatal
to the run. -/
theorem C7_binary_flag :
    (∀ evaluation : String, firstBCLine (pySplitCh '\n' evaluation) = none →
        extract_binary_correct evaluation = .ok 0)
    ∧ (∀ (evaluation l pre seg : String) (restSegs : List String),
        firstBCLine (pySplitCh '\n' evaluation) = some l →
        pySplitCh ':' l = pre :: seg :: restSegs →
        extract_binary_correct evaluation = .ok (if containsChar seg '1' then 1 else 0))
    ∧ (∀ (evaluation l seg0 : String), firstBCLine (pySplitCh '\n' evaluation) = some l →
        pySplitCh ':' l = [seg0] →
        extract_binary_correct evaluation = .error ()) := by
  refine ⟨?_, ?_, ?_⟩
  · intro evaluation h
    exact extract_lines_none h
  · intro evaluation l pre seg restSegs h hsplit
    rw [extract_binary_correct, extract_lines_some h, hsplit]
  · intro evaluation l seg0 h hsplit
    rw [extract_binary_correct, extract_lines_some h, hsplit]

/-- Witness for claim C7: the three cases at concrete evaluations. -/
theorem C7_binary_flag_witness :
    extract_binary_correct "Medical Accuracy: 9 - fine" = .ok 0
    ∧ extract_binary_correct "Binary Correctness: 1 - correct" = .ok 1
    ∧ extract_binary_correct "binary correctness 1" = .error () := by
  refine ⟨?_, ?_, ?_⟩
  · exact C7_binary_flag.1 "Medical Accuracy: 9 - fine" (by decide)
  · have h := C7_binary_flag.2.1 "Binary Correctness: 1 - correct"
      "Binary Correctness: 1 - correct" "Binary Correctness" " 1 - correct" []
      (by decide) (by decide)
    rw [h]
    rfl
  · exact C7_binary_flag.2.2 "binary correctness 1" "binary correctness 1"
      "binary correctness 1" (by decide) (by decide)

/-- Counterexample for claim C7 as stated: on the evaluation line
Binary Correctness: 0 - clarity was 10 the reported score (the first
character after the colon, once stripped) is 0, yet the extracted flag
is 1, because the digit 1 occurs later in the segment after the
colon. -/
theorem C7_counterexample :
    extract_binary_correct "Binary Correctness: 0 - clarity was 10" = .ok 1
    ∧ (pyStrip ((pySplitCh ':' "Binary Correctness: 0 - clarity was 10").getD 1 "")).data.head?
        = some '0' := by
  refine ⟨rfl, by decide⟩

/-!
Wrong-answer generation of scripts/generate_wrong_answers.py.
-/

/-- Error sentinel string of generate_wrong_answers, numbered from
one. -/
def wrongSentinel (k : Nat) : String := "Error generating answer " ++ toString k

/-- Numbering removal of one parsed line: a dot-space or
parenthesis-space marker inside the first three characters splits the
line once and keeps the remainder. -/
def stripNumbering (line : String) : String :=
  if containsSub ('.' :: ' ' :: []) (pyTake 3 line).data then
    match splitOnceAux ('.' :: ' ' :: []) line.data with
    | some p => ⟨p.2⟩
    | none => line
  else if containsSub (')' :: ' ' :: []) (pyTake 3 line).data then
    match splitOnceAux (')' :: ' ' :: []) line.data with
    | some p => ⟨p.2⟩
    | none => line
  else line

/-- Parsed answers of a response: nonempty stripped lines, at most
three, each with its numbering removed. -/
def parsedAnswers (response : String) : List String :=
  ((((pySplitCh '\n' response).map pyStrip).filter (fun l => l ≠ "")).take 3).map stripNumbering

/-- While loop padding the answer list with numbered sentinels up to
three elements, unrolled over its at most three iterations. -/
def padAnswersTo3 (answers : List String) : List String :=
  match answers with
  | [] => [wrongSentinel 1, wrongSentinel 2, wrongSentinel 3]
  | [a] => [a, wrongSentinel 2, wrongSentinel 3]
  | [a, b] => [a, b, wrongSentinel 3]
  | l => l

/-- Embedding of generate_wrong_answers of
scripts/generate_wrong_answers.py as a function of the gateway
response: a falsy response yields the three literal sentinels,
otherwise the parsed answers padded and truncated to three. -/
def generate_wrong_answers (response : Option String) : List String :=
  if pyTruthy response = false then
    ["Error generating answer 1", "Error generating answer 2", "Error generating answer 3"]
  else
    (padAnswersTo3 (parsedAnswers (response.getD ""))).take 3

/-- Claim C8: generate_wrong_answers always returns exactly three
strings; with no response all three are error sentinels; with fewer
than three parsed answers the list is padded with numbered error
sentinels up to three; with three or more parsed answers exactly the
first three are returned. -/
theorem C8_wrong_answers :
    (∀ response : Option String, (generate_wrong_answers response).length = 3)
    ∧ generate_wrong_answers none =
        ["Error generating answer 1", "Error generating answer 2", "Error generating answer 3"]
    ∧ (∀ r : String, r ≠ "" → parsedAnswers r = [] →
        generate_wrong_answers (some r) =
          ["Error generating answer 1", "Error generating answer 2", "Error generating answer 3"])
    ∧ (∀ (r : String) (a : String), r ≠ "" → parsedAnswers r = [a] →
        generate_wrong_answers (some r) = [a, wrongSentinel 2, wrongSentinel 3])
    ∧ (∀ (r : String) (a b : String), r ≠ "" → parsedAnswers r = [a, b] →
        generate_wrong_answers (some r) = [a, b, wrongSentinel 3])
    ∧ (∀ r : String, r ≠ "" → 3 ≤ (parsedAnswers r).length →
        generate_wrong_answers (some r) = (parsedAnswers r).take 3) := by
  have hlen : ∀ l : List String, l.length ≤ 3 → ((padAnswersTo3 l).take 3).length = 3 := by
    intro l hl
    match l with
    | [] => rfl
    | [a] => rfl
    | [a, b] => rfl
    | [a, b, c] => rfl
    | a :: b :: c :: d :: t => simp at hl
  refine ⟨?_, rfl, ?_, ?_, ?_, ?_⟩
  · intro response
    rcases response with _ | r
    · rfl
    · by_cases hr : r = ""
      · simp [generate_wrong_answers, pyTruthy, hr]
      · have ht : pyTruthy (some r) = true := by simp [pyTruthy, hr]
        rw [generate_wrong_answers, ht]
        simp only [Bool.true_eq_false, if_false]
        apply hlen
        unfold parsedAnswers
        simp [List.length_take]
  · intro r hr hp
    rw [generate_wrong_answers, if_neg (by simp [pyTruthy, hr])]
    simp only [Option.getD_some]
    rw [hp]
    decide
  · intro r a hr hp
    rw [generate_wrong_answers, if_neg (by simp [pyTruthy, hr])]
    simp only [Option.getD_some]
    rw [hp]
    rfl
  · intro r a b hr hp
    rw [generate_wrong_answers, if_neg (by simp [pyTruthy, hr])]
    simp only [Option.getD_some]
    rw [hp]
    rfl
  · intro r hr hp
    rw [generate_wrong_answers, if_neg (by simp [pyTruthy, hr])]
    simp only [Option.getD_some]
    rcases hq : parsedAnswers r with _ | ⟨a, _ | ⟨b, _ | ⟨c, t⟩⟩⟩ <;> rw [hq] at hp
    · simp at hp
    · simp at hp
    · simp at hp
    · rfl

/-- Witness for claim C8: a response parsing to a single answer is
padded with two numbered sentinels. -/
theorem C8_wrong_answers_witness :
    ("1. Only answer" : String) ≠ ""
    ∧ parsedAnswers "1. Only answer" = ["Only answer"]
    ∧ generate_wrong_answers (some "1. Only answer") =
        ["Only answer", wrongSentinel 2, wrongSentinel 3] :=
  ⟨by decide, by decide,
   C8_wrong_answers.2.2.2.1 "1. Only answer" "Only answer" (by decide) (by decide)⟩

/-!
Answer summarisation of scripts/summarize_option_a.py.
-/

/-- Embedding of summarize_answer of scripts/summarize_option_a.py as a
function of the gateway response: a falsy response falls back to the
first 200 characters of the answer plus an ellipsis when the answer is
long; a response longer than 200 characters is cut to 197 plus an
ellipsis. -/
def summarize_answer (response : Option String) (answer : String) : String :=
  if pyTruthy response = false then
    if pyLen answer > 200 then pyTake 200 answer ++ "..." else answer
  else
    if pyLen (response.getD "") > 200 then pyTake 197 (response.getD "") ++ "..."
    else response.getD ""

/-- Claim C9: with a (truthy) response the result of summarize_answer
never exceeds 200 characters (a long response is cut to 197 plus the
three-character ellipsis); with a failed call and an answer longer than
200 characters the fallback is the first 200 characters of the answer
plus the ellipsis, 203 characters in total, exceeding the bound. -/
theorem C9_summary_length :
    (∀ r answer : String, r ≠ "" → pyLen (summarize_answer (some r) answer) ≤ 200)
    ∧ (∀ (response : Option String) (answer : String), pyTruthy response = false →
        200 < pyLen answer →
        summarize_answer response answer = pyTake 200 answer ++ "..."
        ∧ pyLen (summarize_answer response answer) = 203) := by
  constructor
  · intro r answer hr
    rw [summarize_answer, if_neg (by simp [pyTruthy, hr])]
    simp only [Option.getD_some]
    by_cases hl : pyLen r > 200
    · rw [if_pos hl]
      show ((pyTake 197 r ++ "...").data).length ≤ 200
      rw [String.data_append]
      unfold pyLen at hl
      simp only [pyTake, List.length_append, List.length_take, List.length_cons,
        List.length_nil]
      omega
    · rw [if_neg hl]
      unfold pyLen at hl ⊢
      omega
  · intro response answer hfalsy hlong
    rw [summarize_answer, if_pos hfalsy, if_pos (by omega)]
    refine ⟨rfl, ?_⟩
    show ((pyTake 200 answer ++ "...").data).length = 203
    rw [String.data_append]
    unfold pyLen at hlong
    simp only [pyTake, List.length_append, List.length_take, List.length_cons,
      List.length_nil]
    omega

/-- One-hundred-one copies of a long filler character sequence, used as
a concrete over-long answer. -/
def longAnswer : String := ⟨List.replicate 201 'x'⟩

/-- Witness for claim C9: a truthy response stays within the bound and
the fallback on a 201-character answer has exactly 203 characters. -/
theorem C9_summary_length_witness :
    ("ok" : String) ≠ ""
    ∧ pyLen (summarize_answer (some "ok") longAnswer) ≤ 200
    ∧ pyTruthy none = false
    ∧ 200 < pyLen longAnswer
    ∧ pyLen (summarize_answer none longAnswer) = 203 := by
  have h201 : pyLen longAnswer = 201 := by
    show (List.replicate 201 'x').length = 201
    rw [List.length_replicate]
  exact ⟨by decide,
    C9_summary_length.1 "ok" longAnswer (by decide),
    rfl,
    by omega,
    (C9_summary_length.2 none longAnswer rfl (by omega)).2⟩

/-!
Answer randomisation of
scripts/benchmarking_data_processing/randomize_answers.py.  The
random.choice of a position and the random.shuffle of the three wrong
answers are modelled by a per-row choice parameter; shuffling is a
permutation of its input, stated as a hypothesis where needed.
-/

/-- Option position letter. -/
inductive Letter where
  | A
  | B
  | C
  | D
deriving DecidableEq, Repr

/-- Read the option field named by a position letter. -/
def letterField (r : QARow) : Letter → String
  | .A => r.optA
  | .B => r.optB
  | .C => r.optC
  | .D => r.optD

/-- Per-row placement of randomize_answers: the correct answer (held in
column A of the input row) goes to the chosen position, the shuffled
wrong answers fill the remaining positions in order. -/
def randomize_row (row : QARow) (pos : Letter) (w : List String) : QARow :=
  match pos with
  | .A => { row with optA := row.optA, optB := w.getD 0 "",
                     optC := w.getD 1 "", optD := w.getD 2 "" }
  | .B => { row with optA := w.getD 0 "", optB := row.optA,
                     optC := w.getD 1 "", optD := w.getD 2 "" }
  | .C => { row with optA := w.getD 0 "", optB := w.getD 1 "",
                     optC := row.optA, optD := w.getD 2 "" }
  | .D => { row with optA := w.getD 0 "", optB := w.getD 1 "",
                     optC := w.getD 2 "", optD := row.optA }

/-- Row loop of randomize_answers, building the randomized rows and the
correct-answers dictionary. -/
def randomizeGo (choices : Nat → Letter × List String) :
    Nat → List QARow → List QARow → List (String × Letter) →
      List QARow × List (String × Letter)
  | _, [], accRows, accMap => (accRows.reverse, accMap)
  | i, row :: rest, accRows, accMap =>
    randomizeGo choices (i + 1) rest
      (randomize_row row (choices i).1 (choices i).2 :: accRows)
      (dictSet accMap row.id (choices i).1)

/-- Embedding of randomize_answers of
scripts/benchmarking_data_processing/randomize_answers.py. -/
def randomize_answers (rows : List QARow) (choices : Nat → Letter × List String) :
    List QARow × List (String × Letter) :=
  randomizeGo choices 0 rows [] []

/-- Specification-side list of randomized rows in order. -/
def randomizeSpec (choices : Nat → Letter × List String) : List QARow → Nat → List QARow
  | [], _ => []
  | row :: rest, i =>
    randomize_row row (choices i).1 (choices i).2 :: randomizeSpec choices rest (i + 1)

/-- The row loop emits the randomized rows in order after the
accumulator. -/
theorem randomizeGo_rows (choices : Nat → Letter × List String) :
    ∀ (rows : List QARow) (i : Nat) (accRows : List QARow) (accMap : List (String × Letter)),
      (randomizeGo choices i rows accRows accMap).1 =
        accRows.reverse ++ randomizeSpec choices rows i := by
  intro rows
  induction rows with
  | nil => intro i accRows accMap; simp [randomizeGo, randomizeSpec]
  | cons row rest ih =>
    intro i accRows accMap
    rw [randomizeGo, randomizeSpec, ih]
    simp

/-- Position of the randomized rows list. -/
theorem randomizeSpec_getD (choices : Nat → Letter × List String) :
    ∀ (rows : List QARow) (i j : Nat), j < rows.length →
      (randomizeSpec choices rows i).getD j default =
        randomize_row (rows.getD j default) (choices (i + j)).1 (choices (i + j)).2 := by
  intro rows
  induction rows with
  | nil => intro i j hj; simp at hj
  | cons row rest ih =>
    intro i j hj
    match j with
    | 0 => simp [randomizeSpec]
    | Nat.succ j0 =>
      rw [randomizeSpec]
      have := ih (i + 1) j0 (by simpa using hj)
      simp only [List.getD_cons_succ]
      rw [this]
      have harith : i + 1 + j0 = i + (j0 + 1) := by omega
      rw [harith]

/-- If a key does not occur among the remaining row ids, the final
dictionary agrees with the accumulator. -/
theorem randomizeGo_map_notin (choices : Nat → Letter × List String) :
    ∀ (rows : List QARow) (i : Nat) (accRows : List QARow)
      (accMap : List (String × Letter)) (k : String), (∀ r ∈ rows, r.id ≠ k) →
      dictGet (randomizeGo choices i rows accRows accMap).2 k = dictGet accMap k := by
  intro rows
  induction rows with
  | nil => intro i accRows accMap k _; rfl
  | cons row rest ih =>
    intro i accRows accMap k hk
    rw [randomizeGo, ih _ _ _ _ (fun r hr => hk r (List.mem_cons_of_mem row hr))]
    exact dictGet_set_ne _ _ _ _ (fun hh => hk row (List.mem_cons_self row rest) hh.symm)

/-- With distinct row ids the dictionary records, for each row, the
position chosen for it. -/
theorem randomizeGo_map_nodup (choices : Nat → Letter × List String) :
    ∀ (rows : List QARow) (i : Nat) (accRows : List QARow)
      (accMap : List (String × Letter)), (rows.map QARow.id).Nodup →
      ∀ j, j < rows.length →
      dictGet (randomizeGo choices i rows accRows accMap).2 ((rows.getD j default).id) =
        some (choices (i + j)).1 := by
  intro rows
  induction rows with
  | nil => intro i accRows accMap _ j hj; simp at hj
  | cons row rest ih =>
    intro i accRows accMap hnd j hj
    have hnd2 : (rest.map QARow.id).Nodup := (List.nodup_cons.mp (by simpa using hnd)).2
    have hnotin : row.id ∉ rest.map QARow.id := (List.nodup_cons.mp (by simpa using hnd)).1
    match j with
    | 0 =>
      simp only [List.getD_cons_zero]
      rw [randomizeGo]
      rw [randomizeGo_map_notin choices rest _ _ _ row.id
        (fun r hr hh => hnotin (hh ▸ List.mem_map_of_mem QARow.id hr))]
      rw [dictGet_set_self]
      simp
    | Nat.succ j0 =>
      simp only [List.getD_cons_succ]
      rw [randomizeGo]
      have hstep := ih (i + 1)
        (randomize_row row (choices i).1 (choices i).2 :: accRows)
        (dictSet accMap row.id (choices i).1) hnd2 j0 (by simpa using hj)
      rw [hstep]
      have harith : i + 1 + j0 = i + (j0 + 1) := by omega
      rw [harith]

/-- The four option fields after placement are a permutation of the
four input option values, given that the wrong answers were
shuffled. -/
theorem randomize_row_perm (row : QARow) (pos : Letter) (w : List String)
    (hw : w.Perm [row.optB, row.optC, row.optD]) :
    ([(randomize_row row pos w).optA, (randomize_row row pos w).optB,
      (randomize_row row pos w).optC, (randomize_row row pos w).optD]).Perm
      [row.optA, row.optB, row.optC, row.optD] := by
  obtain ⟨w0, w1, w2, hw3⟩ : ∃ a b c, w = [a, b, c] := by
    have hlen : w.length = 3 := by rw [hw.length_eq]; rfl
    match w, hlen with
    | [a, b, c], _ => exact ⟨a, b, c, rfl⟩
  subst hw3
  cases pos
  · simpa [randomize_row] using hw.cons row.optA
  · refine List.Perm.trans (List.Perm.swap row.optA w0 [w1, w2]) ?_
    simpa [randomize_row] using hw.cons row.optA
  · refine List.Perm.trans (List.Perm.cons w0 (List.Perm.swap row.optA w1 [w2])) ?_
    refine List.Perm.trans (List.Perm.swap row.optA w0 [w1, w2]) ?_
    simpa [randomize_row] using hw.cons row.optA
  · refine List.Perm.trans (List.Perm.cons w0 (List.Perm.cons w1
      (List.Perm.swap row.optA w2 []))) ?_
    refine List.Perm.trans (List.Perm.cons w0 (List.Perm.swap row.optA w1 [w2])) ?_
    refine List.Perm.trans (List.Perm.swap row.optA w0 [w1, w2]) ?_
    simpa [randomize_row] using hw.cons row.optA

/-- The chosen position holds the original column-A answer. -/
theorem randomize_row_field (row : QARow) (pos : Letter) (w : List String) :
    letterField (randomize_row row pos w) pos = row.optA := by
  cases pos <;> rfl

/-- Claim C10 (amended): for every processed row the output option
fields are a permutation (as a multiset) of the input option values,
and the chosen position holds the original column-A answer; provided
row ids are pairwise distinct, the correct-answers mapping records
exactly that chosen position for the row id. -/
theorem C10_randomize :
    ∀ (rows : List QARow) (choices : Nat → Letter × List String),
      (∀ i, i < rows.length → ((choices i).2).Perm
        [(rows.getD i default).optB, (rows.getD i default).optC,
         (rows.getD i default).optD]) →
      ∀ j, j < rows.length →
        ([((randomize_answers rows choices).1.getD j default).optA,
          ((randomize_answers rows choices).1.getD j default).optB,
          ((randomize_answers rows choices).1.getD j default).optC,
          ((randomize_answers rows choices).1.getD j default).optD].Perm
          [(rows.getD j default).optA, (rows.getD j default).optB,
           (rows.getD j default).optC, (rows.getD j default).optD])
        ∧ letterField ((randomize_answers rows choices).1.getD j default) (choices j).1 =
            (rows.getD j default).optA
        ∧ ((rows.map QARow.id).Nodup →
            dictGet (randomize_answers rows choices).2 ((rows.getD j default).id) =
              some (choices j).1) := by
  intro rows choices hperm j hj
  have hrow : (randomize_answers rows choices).1.getD j default =
      randomize_row (rows.getD j default) (choices j).1 (choices j).2 := by
    show (randomizeGo choices 0 rows [] []).1.getD j default = _
    rw [randomizeGo_rows]
    simp only [List.reverse_nil, List.nil_append]
    rw [randomizeSpec_getD _ _ _ _ hj]
    simp
  refine ⟨?_, ?_, ?_⟩
  · rw [hrow]
    exact randomize_row_perm _ _ _ (hperm j hj)
  · rw [hrow]
    exact randomize_row_field _ _ _
  · intro hnd
    have hmap := randomizeGo_map_nodup choices rows 0 [] [] hnd j hj
    simpa using hmap

/-- Witness for claim C10: a two-row table with distinct ids and honest
shuffles. -/
theorem C10_randomize_witness :
    (([⟨"1", "q", "ca", "x", "y", "z"⟩, ⟨"2", "q", "cb", "p", "s", "r"⟩] :
        List QARow).map QARow.id).Nodup
    ∧ letterField ((randomize_answers
        [⟨"1", "q", "ca", "x", "y", "z"⟩, ⟨"2", "q", "cb", "p", "s", "r"⟩]
        (fun i => if i = 0 then (Letter.B, ["z", "x", "y"]) else
          (Letter.D, ["p", "s", "r"]))).1.getD 0 default) Letter.B = "ca"
    ∧ dictGet ((randomize_answers
        [⟨"1", "q", "ca", "x", "y", "z"⟩, ⟨"2", "q", "cb", "p", "s", "r"⟩]
        (fun i => if i = 0 then (Letter.B, ["z", "x", "y"]) else
          (Letter.D, ["p", "s", "r"]))).2) "1" = some Letter.B := by
  have h := C10_randomize
    [⟨"1", "q", "ca", "x", "y", "z"⟩, ⟨"2", "q", "cb", "p", "s", "r"⟩]
    (fun i => if i = 0 then (Letter.B, ["z", "x", "y"]) else (Letter.D, ["p", "s", "r"]))
    (by
      intro i hi
      match i, hi with
      | 0, _ => decide
      | 1, _ => decide) 0 (by decide)
  exact ⟨by decide, h.2.1, h.2.2 (by decide)⟩

/-- Rows with a duplicated id for the counterexample of claim C10. -/
def c10Rows : List QARow :=
  [⟨"1", "q", "ca", "x", "y", "z"⟩, ⟨"1", "q", "cb", "p", "s", "r"⟩]

/-- Choices for the counterexample of claim C10: honest shuffles,
position A for the first row and position B for the second. -/
def c10Choices (i : Nat) : Letter × List String :=
  if i = 0 then (Letter.A, ["x", "y", "z"]) else (Letter.B, ["p", "s", "r"])

/-- Counterexample for claim C10 as stated: with two rows sharing the
id 1 the mapping records only the second row's position B, and option
field B of the first output row holds the wrong answer x, not the first
row's original column-A answer ca — even though both shuffles are
honest permutations. -/
theorem C10_counterexample :
    ((c10Choices 0).2).Perm
      [(c10Rows.getD 0 default).optB, (c10Rows.getD 0 default).optC,
       (c10Rows.getD 0 default).optD]
    ∧ ((c10Choices 1).2).Perm
      [(c10Rows.getD 1 default).optB, (c10Rows.getD 1 default).optC,
       (c10Rows.getD 1 default).optD]
    ∧ dictGet (randomize_answers c10Rows c10Choices).2 "1" = some Letter.B
    ∧ letterField ((randomize_answers c10Rows c10Choices).1.getD 0 default) Letter.B = "x"
    ∧ (c10Rows.getD 0 default).optA = "ca"
    ∧ ("x" : String) ≠ "ca" := by
  refine ⟨by decide, by decide, by decide, by decide, by decide, by decide⟩
